import Mathlib

/-!
Verification of the draws-extraction and dtype-inference core of
`arviz/data/io_pystan.py` (functions `get_draws` and `infer_dtypes`),
via a shallow embedding into Lean.

Numpy arrays are modelled as a shape together with a row-major (C-order)
flat element list.  Machine floats never matter for the verified claims
(they are all about placement, shapes, selection and error paths), so the
scalar element type is an arbitrary inhabited type.
-/

set_option autoImplicit false


variable {α : Type}

/-! ### Shape and index arithmetic (numpy C-order and F-order ranking) -/

/-- Product of a shape list; the empty product is 1, matching
`np.prod([]) == 1.0`. -/
def shapeProd : List Nat → Nat
  | [] => 1
  | s :: ss => s * shapeProd ss

/-- Row-major (C-order) linear position of a multi-index. -/
def cRank : List Nat → List Nat → Nat
  | _, [] => 0
  | [], _ :: _ => 0
  | _ :: ss, i :: is => i * shapeProd ss + cRank ss is

/-- Column-major (F-order) linear position of a multi-index: the first
index varies fastest. -/
def fRank : List Nat → List Nat → Nat
  | _, [] => 0
  | [], _ :: _ => 0
  | s :: ss, i :: is => i + s * fRank ss is

/-- Multi-index of a linear position in C order. -/
def cUnrank : List Nat → Nat → List Nat
  | [], _ => []
  | _ :: ss, t => (t / shapeProd ss) :: cUnrank ss (t % shapeProd ss)

/-- Multi-index of a linear position in F order. -/
def fUnrank : List Nat → Nat → List Nat
  | [], _ => []
  | s :: ss, t => (t % s) :: fUnrank ss (t / s)

/-- An index is valid for a shape when the lengths agree and each
component is below the corresponding extent. -/
def isValid : List Nat → List Nat → Prop
  | [], [] => True
  | s :: ss, i :: is => i < s ∧ isValid ss is
  | _, _ => False

instance isValid.instDecidable : ∀ (s i : List Nat), Decidable (isValid s i)
  | [], [] => isTrue trivial
  | [], _ :: _ => isFalse (fun h => h)
  | _ :: _, [] => isFalse (fun h => h)
  | s :: ss, i :: is =>
    match isValid.instDecidable ss is with
    | isTrue h =>
      if hi : i < s then isTrue ⟨hi, h⟩ else isFalse (fun hc => hi hc.1)
    | isFalse h => isFalse (fun hc => h hc.2)

theorem cRank_lt : ∀ {s i : List Nat}, isValid s i → cRank s i < shapeProd s
  | [], [], _ => by simp [cRank, shapeProd]
  | s :: ss, i :: is, h => by
    have h1 : i < s := h.1
    have h2 : cRank ss is < shapeProd ss := cRank_lt h.2
    have : i * shapeProd ss + cRank ss is < (i + 1) * shapeProd ss := by
      calc i * shapeProd ss + cRank ss is < i * shapeProd ss + shapeProd ss := by
            omega
        _ = (i + 1) * shapeProd ss := by ring
    calc cRank (s :: ss) (i :: is) = i * shapeProd ss + cRank ss is := rfl
      _ < (i + 1) * shapeProd ss := this
      _ ≤ s * shapeProd ss := Nat.mul_le_mul_right _ h1
      _ = shapeProd (s :: ss) := rfl

theorem fRank_lt : ∀ {s i : List Nat}, isValid s i → fRank s i < shapeProd s
  | [], [], _ => by simp [fRank, shapeProd]
  | s :: ss, i :: is, h => by
    have h1 : i < s := h.1
    have h2 : fRank ss is < shapeProd ss := fRank_lt h.2
    calc fRank (s :: ss) (i :: is) = i + s * fRank ss is := rfl
      _ < s + s * fRank ss is := by omega
      _ = s * (fRank ss is + 1) := by ring
      _ ≤ s * shapeProd ss := Nat.mul_le_mul_left _ h2
      _ = shapeProd (s :: ss) := rfl

theorem cUnrank_cRank : ∀ {s i : List Nat}, isValid s i → cUnrank s (cRank s i) = i
  | [], [], _ => rfl
  | s :: ss, i :: is, h => by
    have h2 : cRank ss is < shapeProd ss := cRank_lt h.2
    have hdiv : (i * shapeProd ss + cRank ss is) / shapeProd ss = i := by
      rw [Nat.mul_comm i _, Nat.mul_add_div (by omega : 0 < shapeProd ss),
        Nat.div_eq_of_lt h2]
      omega
    have hmod : (i * shapeProd ss + cRank ss is) % shapeProd ss = cRank ss is := by
      rw [Nat.mul_comm i _, Nat.mul_add_mod]
      exact Nat.mod_eq_of_lt h2
    show (cRank (s :: ss) (i :: is) / shapeProd ss) ::
        cUnrank ss (cRank (s :: ss) (i :: is) % shapeProd ss) = i :: is
    rw [show cRank (s :: ss) (i :: is) = i * shapeProd ss + cRank ss is from rfl,
      hdiv, hmod, cUnrank_cRank h.2]

theorem fUnrank_fRank : ∀ {s i : List Nat}, isValid s i → fUnrank s (fRank s i) = i
  | [], [], _ => rfl
  | s :: ss, i :: is, h => by
    have h1 : i < s := h.1
    have hmod : (i + s * fRank ss is) % s = i := by
      rw [Nat.add_mul_mod_self_left]
      exact Nat.mod_eq_of_lt h1
    have hdiv : (i + s * fRank ss is) / s = fRank ss is := by
      rw [Nat.add_mul_div_left _ _ (by omega : 0 < s), Nat.div_eq_of_lt h1]
      omega
    show (fRank (s :: ss) (i :: is) % s) :: fUnrank ss (fRank (s :: ss) (i :: is) / s) = i :: is
    rw [show fRank (s :: ss) (i :: is) = i + s * fRank ss is from rfl, hmod, hdiv,
      fUnrank_fRank h.2]

theorem isValid_cons {s : Nat} {ss : List Nat} {i : Nat} {is : List Nat} :
    isValid (s :: ss) (i :: is) ↔ i < s ∧ isValid ss is := Iff.rfl

/-! ### The ndarray model -/

/-- A dense numpy array: a shape plus the elements flattened in row-major
(C) order. -/
structure NpArray (α : Type) where
  shape : List Nat
  flat : List α
  deriving DecidableEq, Repr

instance [Inhabited α] : Inhabited (NpArray α) := ⟨⟨[], []⟩⟩

/-- Element at a multi-index (out-of-range positions give `default`;
all verified statements index within bounds). -/
def NpArray.atIdx [Inhabited α] (a : NpArray α) (idx : List Nat) : α :=
  a.flat.getD (cRank a.shape idx) default

/-- The elements of an array read in F (column-major) order, i.e.
`np.ravel(a, order="F")`. -/
def ravelFlatF [Inhabited α] (a : NpArray α) : List α :=
  (List.range a.flat.length).map
    (fun t => a.flat.getD (cRank a.shape (fUnrank a.shape t)) default)

/-- `a.reshape((-1, *s), order="F")`: the trailing extents are `s` and the
leading extent is inferred; elements are read and written in F order.
`none` models the `ValueError` numpy raises when the inferred extent does
not come out whole. -/
def reshapeNegOneF [Inhabited α] (s : List Nat) (a : NpArray α) : Option (NpArray α) :=
  let total := a.flat.length
  let p := shapeProd s
  if p ≠ 0 ∧ p ∣ total then
    let ns := total / p :: s
    some ⟨ns, (List.range total).map
      (fun t => (ravelFlatF a).getD (fRank ns (cUnrank ns t)) default)⟩
  else none

/-- Clamped start position of the Python slice `x[start:]` on an axis of
extent `n` (negative values count from the end). -/
def pyStart (start : Int) (n : Nat) : Nat :=
  if start < 0 then (max ((n : Int) + start) 0).toNat else min start.toNat n

/-- The Python slice `ary[-nd:]` along the leading axis.  Note that
`nd = 0` gives `ary[0:]`, the whole array. -/
def sliceRows [Inhabited α] (nd : Int) (a : NpArray α) : NpArray α :=
  match a.shape with
  | r :: rest =>
    let start := pyStart (-nd) r
    ⟨(r - start) :: rest, a.flat.drop (start * shapeProd rest)⟩
  | [] => a

/-- Row-major flattening of `L` rows, row `r` being the `r`-th entry of
every column: the flat data of `np.column_stack(cols)`. -/
def matFlat [Inhabited α] (L : Nat) (cols : List (List α)) : List α :=
  ((List.range L).map (fun r => cols.map (fun col => col.getD r default))).flatten

/-- Python-level error outcomes surfaced by `get_draws`. -/
inductive PyErr where
  | attrError (msg : String)
  | keyError
  | valueError
  | typeError
  deriving DecidableEq, Repr

/-- `np.column_stack` applied to a nonempty tuple of 1-D columns: columns
of equal length `L` stack into an `(L, k)` array; a length mismatch is
numpy's `ValueError`. -/
def columnStackCols [Inhabited α] (cols : List (List α)) : Except PyErr (NpArray α) :=
  match cols with
  | [] => .error .valueError
  | c0 :: _ =>
    if cols.all (fun c => c.length = c0.length) then
      .ok ⟨[c0.length, cols.length], matFlat c0.length cols⟩
    else .error .valueError

/-- `np.stack(arys, axis=0)`: arrays of one common shape gain a new
leading axis; an empty list or a shape mismatch is numpy's `ValueError`. -/
def stackChains [Inhabited α] (arys : List (NpArray α)) : Except PyErr (NpArray α) :=
  match arys with
  | [] => .error .valueError
  | a0 :: _ =>
    if arys.all (fun a => a.shape = a0.shape) then
      .ok ⟨arys.length :: a0.shape, (arys.map (fun a => a.flat)).flatten⟩
    else .error .valueError

/-! ### The PyStan fit data model -/

/-- One chain holder from `fit.sim["samples"]`: a dict from flattened key
name to that key's column of saved scalar draws. -/
structure ChainHolder (α : Type) where
  chains : List (String × List α)
  deriving DecidableEq, Repr

instance : Inhabited (ChainHolder α) := ⟨⟨[]⟩⟩

/-- The `fit.sim` dictionary fields read by `get_draws`. -/
structure Sim (α : Type) where
  pars_oi : List String
  dims_oi : List (List Nat)
  fnames_oi : List String
  n_save : List Nat
  warmup2 : List Nat
  samples : Option (List (ChainHolder α))
  deriving DecidableEq, Repr

/-- The parts of a PyStan fit object consumed by `get_draws` and
`infer_dtypes`. -/
structure Fit (α : Type) where
  mode : Nat
  sim : Sim α
  model_pars : List String
  stancode : String
  deriving DecidableEq, Repr

/-- Dict lookup in a chain holder (`pyholder.chains[key]`). -/
def lookupCol (chains : List (String × List α)) (k : String) : Option (List α) :=
  (chains.find? (fun p => p.1 == k)).map (fun p => p.2)

/-- All-or-nothing lookup of a list of keys. -/
def lookupsAll (chains : List (String × List α)) : List String → Option (List (List α))
  | [] => some []
  | k :: ks =>
    match lookupCol chains k with
    | none => none
    | some c =>
      match lookupsAll chains ks with
      | none => none
      | some cs => some (c :: cs)

/-- Result of `operator.itemgetter(*keys)(pyholder.chains)`: the bare
column for a single key, a tuple of columns otherwise. -/
inductive GotVal (α : Type) where
  | one (col : List α)
  | many (cols : List (List α))
  deriving DecidableEq, Repr

/-- `itemgetter(*keys)(chains)`: with no key `itemgetter` itself raises
`TypeError`; a missing dict key raises `KeyError`. -/
def itemGet (chains : List (String × List α)) : List String → Except PyErr (GotVal α)
  | [] => .error .typeError
  | [k] =>
    match lookupCol chains k with
    | some col => .ok (.one col)
    | none => .error .keyError
  | ks =>
    match lookupsAll chains ks with
    | some cols => .ok (.many cols)
    | none => .error .keyError

/-- The per-chain body of the extraction loop of `get_draws`:

  ary = itemgetter(*keys)(pyholder.chains)
  if shape: ary = np.column_stack(ary)
  ary = ary[-ndraw:]
  ary = ary.reshape((-1, *shape), order="F")

`np.column_stack` of a single 1-D column of length `L` iterates the
column's scalars and yields a `(1, L)` array.  When `shape` is empty and
there are several keys, `ary` is still a tuple when `.reshape` is hit,
which raises `AttributeError`. -/
def chainArray [Inhabited α] (keys : List String) (shape : List Nat)
    (holder : ChainHolder α) (nd : Int) : Except PyErr (NpArray α) :=
  match itemGet holder.chains keys with
  | .error e => .error e
  | .ok got =>
    match got, shape with
    | .one col, [] =>
      match reshapeNegOneF [] (sliceRows nd ⟨[col.length], col⟩) with
      | some a => .ok a
      | none => .error .valueError
    | .one col, s :: ss =>
      match reshapeNegOneF (s :: ss) (sliceRows nd ⟨[1, col.length], col⟩) with
      | some a => .ok a
      | none => .error .valueError
    | .many _, [] =>
      .error (.attrError "\x27tuple\x27 object has no attribute \x27reshape\x27")
    | .many cols, s :: ss =>
      match columnStackCols cols with
      | .error e => .error e
      | .ok stacked =>
        match reshapeNegOneF (s :: ss) (sliceRows nd stacked) with
        | some a => .ok a
        | none => .error .valueError

/-- Error-propagating map, mirroring a Python loop that may raise. -/
def listMapE {β γ : Type} (f : β → Except PyErr γ) : List β → Except PyErr (List γ)
  | [] => .ok []
  | x :: xs =>
    match f x with
    | .error e => .error e
    | .ok y =>
      match listMapE f xs with
      | .error e => .error e
      | .ok ys => .ok (y :: ys)

/-- `key.split("[")[0]`: the flattened key's pre-bracket variable name. -/
def keyVarName (key : String) : String :=
  String.mk (key.data.takeWhile (fun c => c ≠ '['))

/-- The `var_keys` ordered dict: group `fnames_oi` by pre-bracket prefix,
preserving first-seen order, each group keeping key order. -/
def groupKeys (fnames : List String) : List (String × List String) :=
  fnames.foldl
    (fun acc key =>
      let var := keyVarName key
      if acc.any (fun p => p.1 == var) then
        acc.map (fun p => if p.1 == var then (p.1, p.2 ++ [key]) else p)
      else acc ++ [(var, [key])])
    []

/-- `dict(zip(pars_oi, dims_oi))`: later duplicate keys overwrite the
value in place. -/
def buildShapes (pars : List String) (dims : List (List Nat)) : List (String × List Nat) :=
  (pars.zip dims).foldl
    (fun acc p =>
      if acc.any (fun q => q.1 == p.1) then
        acc.map (fun q => if q.1 == p.1 then p else q)
      else acc ++ [p])
    []

/-- `np.prod(dim)` as the drop test computes it: the empty product is 1
(`np.prod([])` is `1.0`), and a nonempty integer list is reduced in
wrapping 64-bit machine arithmetic, so the result is the true product
modulo `2 ^ 64` (written as its literal `18446744073709551616`).  An
all-positive shape whose true product is a multiple of `2 ^ 64` therefore
compares equal to zero. -/
def npProd (l : List Nat) : Nat :=
  l.foldl (fun a b => a * b % 18446744073709551616) 1

/-- The zero-size drop loop of `get_draws`: for every `(var, dim)` in
`zip(pars_oi, dims_oi)`, if `var` is still selected and `np.prod(dim)`
compares equal to zero (in its wrapping 64-bit arithmetic), delete the
first occurrence of `var` from the selection. -/
def dropZeroSized (pars : List String) (dims : List (List Nat)) (vars : List String) :
    List String :=
  (pars.zip dims).foldl
    (fun vs p => if p.1 ∈ vs ∧ npProd p.2 = 0 then vs.erase p.1 else vs)
    vars

/-- The `variables` argument of `get_draws`: `None`, a single name, or a
list of names. -/
inductive VarsArg where
  | nv
  | sv (s : String)
  | lv (l : List String)
  deriving DecidableEq, Repr

/-- Default-and-normalize the `variables` argument. -/
def resolveVars (fit : Fit α) : VarsArg → List String
  | .nv => fit.sim.pars_oi
  | .sv s => [s]
  | .lv l => l

/-- Per-chain draw counts `ndraws = [s - w for s, w in zip(n_save, warmup2)]`
(Python ints, so the subtraction may be zero or negative). -/
def ndrawsOf (fit : Fit α) : List Int :=
  (fit.sim.n_save.zip fit.sim.warmup2).map (fun p => (p.1 : Int) - (p.2 : Int))

/-- `var_keys.get(var, [var])`. -/
def keysFor (fit : Fit α) (var : String) : List String :=
  (((groupKeys fit.sim.fnames_oi).find? (fun p => p.1 == var)).map (fun p => p.2)).getD [var]

/-- `shapes.get(var, [])`. -/
def shapeFor (fit : Fit α) (var : String) : List Nat :=
  (((buildShapes fit.sim.pars_oi fit.sim.dims_oi).find? (fun p => p.1 == var)).map
    (fun p => p.2)).getD []

/-- The fully resolved selection that the extraction loop runs over:
defaulting, the zero-size drop, then the `ignore` filter. -/
def finalVars (fit : Fit α) (vsel : VarsArg) (ignore : List String) : List String :=
  (dropZeroSized fit.sim.pars_oi fit.sim.dims_oi (resolveVars fit vsel)).filter
    (fun v => v ∉ ignore)

/-! ### Text machinery for `infer_dtypes`

The scanner mirrors, on `List Char`, exactly the string pipeline of the
source: strip legacy `#` comments per line, strip C-style comments and
quoted literals with one left-to-right substitution pass, keep the text
after the last literal occurrence of "generated quantities", then run the
case-insensitive scan for the declaration pattern
int, optional angle-bracket groups, whitespace, then one identifier run
ended by a semicolon, equals sign, opening square bracket or whitespace.
Scanning functions that consume non-structurally take a fuel argument;
callers pass the input length, which the per-step length drop makes
sufficient. -/

/-- Python `\s` on the characters relevant here. -/
def pyIsSpace (c : Char) : Bool :=
  c == ' ' || c == '\t' || c == '\n' || c == '\r' || c == '\x0b' || c == '\x0c'

/-- Python `str.splitlines` restricted to the line breaks that can occur
in our model sources: LF, CRLF, CR, VT, FF (no trailing empty line). -/
def pySplitlines : List Char → List (List Char)
  | [] => []
  | '\n' :: rest => [] :: pySplitlines rest
  | '\r' :: '\n' :: rest => [] :: pySplitlines rest
  | '\r' :: rest => [] :: pySplitlines rest
  | '\x0b' :: rest => [] :: pySplitlines rest
  | '\x0c' :: rest => [] :: pySplitlines rest
  | c :: rest =>
    match pySplitlines rest with
    | [] => [[c]]
    | l :: ls => (c :: l) :: ls

/-- Per physical line, drop everything from the first `#` on; rejoin with
newlines (`"\n".join(line if "#" not in line else line[:line.find("#")] ...)`). -/
def stripHashComments (s : List Char) : List Char :=
  List.intercalate ['\n']
    ((pySplitlines s).map (fun line => line.takeWhile (fun c => c ≠ '#')))

/-- Skip a lazily-matched block comment body: remainder after the first
closing star-slash, if any. -/
def dropBlock : List Char → Option (List Char)
  | [] => none
  | '*' :: '/' :: rest => some rest
  | _ :: rest => dropBlock rest

/-- Skip a quoted literal opened by `q`: a backslash escapes the next
character; the remainder after the closing quote, or `none` when the
literal never closes (then the regex alternative fails to match). -/
def dropQuote (q : Char) : List Char → Option (List Char)
  | [] => none
  | '\\' :: _ :: rest => dropQuote q rest
  | ['\\'] => none
  | c :: rest => if c = q then some rest else dropQuote q rest

/-- One pass of `re.sub` with the comment-and-string pattern
(line comments up to the line end, lazy block comments, single- and
double-quoted literals with escapes), removing each leftmost match and
resuming after it; a position with no match keeps its character. -/
def stripCSF : Nat → List Char → List Char
  | _, [] => []
  | 0, l => l
  | f + 1, '/' :: '/' :: rest => stripCSF f (rest.dropWhile (fun c => c ≠ '\n'))
  | f + 1, '/' :: '*' :: rest =>
    match dropBlock rest with
    | some r => stripCSF f r
    | none => '/' :: stripCSF f ('*' :: rest)
  | f + 1, '\x27' :: rest =>
    match dropQuote '\x27' rest with
    | some r => stripCSF f r
    | none => '\x27' :: stripCSF f rest
  | f + 1, '"' :: rest =>
    match dropQuote '"' rest with
    | some r => stripCSF f r
    | none => '"' :: stripCSF f rest
  | f + 1, c :: rest => c :: stripCSF f rest

/-- Comment-and-string stripping with sufficient fuel. -/
def stripCS (l : List Char) : List Char := stripCSF l.length l

/-- Boolean list-prefix test. -/
def isPfx : List Char → List Char → Bool
  | [], _ => true
  | _ :: _, [] => false
  | a :: as, b :: bs => a == b && isPfx as bs

/-- Boolean substring (contiguous) test. -/
def hasSub (m : List Char) : List Char → Bool
  | [] => isPfx m []
  | l@(_ :: rest) => isPfx m l || hasSub m rest

/-- `str.split(sep)` on character lists (leftmost, non-overlapping),
fuelled. -/
def pySplitLF (sep : List Char) : Nat → List Char → List (List Char)
  | _, [] => [[]]
  | 0, l => [l]
  | f + 1, c :: rest =>
    if sep ≠ [] ∧ isPfx sep (c :: rest) then
      [] :: pySplitLF sep f (rest.drop (sep.length - 1))
    else
      match pySplitLF sep f rest with
      | [] => [[c]]
      | p :: ps => (c :: p) :: ps

/-- `str.split(sep)` with sufficient fuel. -/
def pySplitL (sep l : List Char) : List (List Char) := pySplitLF sep l.length l

/-- `s.split(sep)[-1]`: the text after the last occurrence of `sep`
(or all of `s` when `sep` does not occur). -/
def lastPart (sep l : List Char) : List Char := (pySplitL sep l).getLastD []

/-- `\s*`: greedy whitespace skip. -/
def skipWs (l : List Char) : List Char := l.dropWhile pyIsSpace

/-- One `<[^>]+>` group: deterministic (the greedy `[^>]+` run must stop
at a closing angle bracket). -/
def parseLimitGroup : List Char → Option (List Char)
  | '<' :: rest =>
    let inner := rest.takeWhile (fun c => c ≠ '>')
    if inner.isEmpty then none
    else
      match rest.drop inner.length with
      | '>' :: r => some r
      | _ => none
  | _ => none

/-- Remainders after matching 0, 1, 2, ... limit groups, in increasing
group count (the regex engine prefers the greediest, i.e. the last). -/
def limitStatesAux : Nat → List Char → List (List Char)
  | 0, l => [l]
  | f + 1, l =>
    match parseLimitGroup l with
    | some r => l :: limitStatesAux f r
    | none => [l]

/-- All backtracking states of the `(?:\<[^\>]+\>)*` loop. -/
def limitStates (l : List Char) : List (List Char) := limitStatesAux l.length l

/-- A character the parameter-name capture may contain: anything except
a semicolon, equals sign, opening square bracket or whitespace. -/
def isParamChar (c : Char) : Bool :=
  !(c == ';' || c == '=' || c == '[' || pyIsSpace c)

/-- `\s*([^;=\s\[]+)`: skip whitespace, then capture a maximal nonempty
run of parameter characters; returns the capture and the remainder. -/
def tryParam (l : List Char) : Option (List Char × List Char) :=
  let l2 := skipWs l
  let run := l2.takeWhile isParamChar
  if run.isEmpty then none else some (run, l2.drop run.length)

/-- Try to match the whole declaration pattern at the head of `l`:
case-insensitive `int`, whitespace, limit groups (greediest first),
whitespace, then the identifier capture. -/
def matchIntAt : List Char → Option (List Char × List Char)
  | c1 :: c2 :: c3 :: rest =>
    if c1.toLower == 'i' && c2.toLower == 'n' && c3.toLower == 't' then
      ((limitStates (skipWs rest)).reverse).findSome? tryParam
    else none
  | _ => none

/-- `re.findall` with the declaration pattern: scan left to right,
emitting each match's capture and resuming after the match. -/
def findallIntF : Nat → List Char → List (List Char)
  | _, [] => []
  | 0, _ => []
  | f + 1, l@(_ :: rest) =>
    match matchIntAt l with
    | some (cap, rem) => cap :: findallIntF f rem
    | none => findallIntF f rest

/-- `re.findall` with sufficient fuel. -/
def findallInt (l : List Char) : List (List Char) := findallIntF l.length l

/-- Python `str.strip()` (identity on the captures here, which cannot
contain whitespace, but kept for fidelity). -/
def pyStripChars (s : List Char) : List Char :=
  ((s.dropWhile pyIsSpace).reverse.dropWhile pyIsSpace).reverse

/-- The final dict comprehension: keep candidates whose stripped name is
a declared parameter, first occurrence fixing the position, every value
the integer classification. -/
def buildDtypes (cands : List (List Char)) (mp : List String) : List (String × String) :=
  cands.foldl
    (fun acc item =>
      let nm := String.mk (pyStripChars item)
      if nm ∈ mp then
        if acc.any (fun p => p.1 == nm) then acc else acc ++ [(nm, "int")]
      else acc)
    []

/-- The literal marker text. -/
def markerL : List Char := "generated quantities".data

/-- Comment-stripped model source: legacy `#` comments first, then the
comment-and-string pass. -/
def stripAllL (code : List Char) : List Char := stripCS (stripHashComments code)

/-- The region the declaration scan runs over: everything after the last
occurrence of the marker in the stripped source. -/
def scannedRegion (code : List Char) : List Char := lastPart markerL (stripAllL code)

/-- `infer_dtypes(fit)`: scan the region for int declarations and keep
the declared parameters among the captures. -/
def infer_dtypes (fit : Fit α) : List (String × String) :=
  buildDtypes (findallInt (scannedRegion fit.stancode.data)) fit.model_pars

/-! ### `get_draws` -/

/-- The body of the extraction loop for one variable: run the per-chain
pipeline over `zip(fit.sim["samples"], ndraws)` and stack along a new
leading chain axis. -/
def extractVar [Inhabited α] (samples : List (ChainHolder α)) (ndraws : List Int)
    (fit : Fit α) (var : String) : Except PyErr (NpArray α) :=
  match listMapE (fun p => chainArray (keysFor fit var) (shapeFor fit var) p.1 p.2)
      (samples.zip ndraws) with
  | .error e => .error e
  | .ok arys => stackChains arys

/-- One iteration of the extraction loop: extract the variable, retag it
with the dtype looked up in the inferred dtype table (`none` means the
sampler's native floating dtype; the `astype` cast only retags the array
here since element values are abstract), and emit the output entry. -/
def extractEntry [Inhabited α] (samples : List (ChainHolder α)) (fit : Fit α)
    (var : String) : Except PyErr (String × NpArray α × Option String) :=
  match extractVar samples (ndrawsOf fit) fit var with
  | .error e => .error e
  | .ok a =>
    .ok (var, a, ((infer_dtypes fit).find? (fun p => p.1 == var)).map (fun p => p.2))

/-- `get_draws(fit, variables, ignore)`.  The output maps each extracted
variable, in resolved order, to its stacked array together with its dtype
tag.  A duplicated name in `variables` appears once per occurrence with
identical payloads, which denotes the same mapping as the `OrderedDict`
of the source. -/
def get_draws [Inhabited α] (fit : Fit α) (vsel : VarsArg) (ignore : List String) :
    Except PyErr (List (String × NpArray α × Option String)) :=
  if fit.mode = 1 then
    .error (.attrError "Model in mode \x27test_grad\x27. Sampling is not conducted.")
  else if fit.mode = 2 ∨ fit.sim.samples.isNone then
    .error (.attrError "Fit doesn\x27t contain samples.")
  else
    let samples := fit.sim.samples.getD []
    listMapE (extractEntry samples fit) (finalVars fit vsel ignore)

instance {ε β : Type} [DecidableEq ε] [DecidableEq β] : DecidableEq (Except ε β) := fun x y =>
  match x, y with
  | .error a, .error b =>
    if h : a = b then isTrue (by rw [h]) else isFalse (fun hc => h (by injection hc))
  | .error _, .ok _ => isFalse (fun hc => Except.noConfusion hc)
  | .ok _, .error _ => isFalse (fun hc => Except.noConfusion hc)
  | .ok a, .ok b =>
    if h : a = b then isTrue (by rw [h]) else isFalse (fun hc => h (by injection hc))

/-! ### List helper lemmas -/

theorem getD_range_map {β : Type} (f : Nat → β) {n t : Nat} (h : t < n) (d : β) :
    ((List.range n).map f).getD t d = f t := by
  simp [List.getD_eq_getElem?_getD, List.getElem?_map, List.getElem?_range h]

theorem getD_drop {β : Type} (l : List β) (n i : Nat) (d : β) :
    (l.drop n).getD i d = l.getD (n + i) d := by
  simp [List.getD_eq_getElem?_getD, List.getElem?_drop]

theorem getD_flatten_const {β : Type} (k : Nat) :
    ∀ (rows : List (List β)), (∀ row ∈ rows, row.length = k) →
      ∀ {r j : Nat}, r < rows.length → j < k → ∀ (d : β),
        rows.flatten.getD (r * k + j) d = (rows.getD r []).getD j d := by
  intro rows
  induction rows with
  | nil => intro _ r j hr; simp at hr
  | cons row rest ih =>
    intro hall r j hr hj d
    have hlen : row.length = k := hall row (List.mem_cons_self _ _)
    cases r with
    | zero =>
      have hz : 0 * k + j = j := by omega
      rw [hz]
      show (row ++ rest.flatten).getD j d = ((row :: rest).getD 0 []).getD j d
      rw [List.getD_eq_getElem?_getD (row ++ rest.flatten),
        List.getElem?_append_left (by omega), ← List.getD_eq_getElem?_getD]
      rfl
    | succ r' =>
      have hidx : (r' + 1) * k + j = row.length + (r' * k + j) := by
        rw [hlen]; ring
      show (row ++ rest.flatten).getD ((r' + 1) * k + j) d = _
      rw [hidx, List.getD_eq_getElem?_getD (row ++ rest.flatten),
        List.getElem?_append_right (by omega), Nat.add_sub_cancel_left,
        ← List.getD_eq_getElem?_getD]
      have hr' : r' < rest.length := by simpa using Nat.lt_of_succ_lt_succ (by simpa using hr)
      rw [ih (fun rw hm => hall rw (List.mem_cons_of_mem _ hm)) hr' hj d]
      rfl

theorem getD_map_apply {β γ : Type} (g : β → γ) (l : List β) {j : Nat} (hj : j < l.length)
    (d : γ) (d' : β) : (l.map g).getD j d = g (l.getD j d') := by
  rw [List.getD_eq_getElem?_getD, List.getElem?_map, List.getElem?_eq_getElem hj,
    List.getD_eq_getElem?_getD, List.getElem?_eq_getElem hj]
  rfl

/-! ### Operation-level lemmas -/

theorem matFlat_length [Inhabited α] (L : Nat) (cols : List (List α)) :
    (matFlat L cols).length = L * cols.length := by
  unfold matFlat
  rw [List.length_flatten, List.map_map]
  have : ((List.range L).map
      (List.length ∘ fun r => cols.map (fun col => col.getD r default))) =
      (List.range L).map (fun _ => cols.length) := by
    apply List.map_congr_left
    intro r _
    simp
  rw [this, List.map_const', List.sum_replicate, smul_eq_mul, List.length_range]

theorem matFlat_getD [Inhabited α] (L : Nat) (cols : List (List α)) {r j : Nat}
    (hr : r < L) (hj : j < cols.length) :
    (matFlat L cols).getD (r * cols.length + j) default = (cols.getD j []).getD r default := by
  unfold matFlat
  rw [getD_flatten_const cols.length _
    (by intro row hm
        obtain ⟨x, _, hx⟩ := List.mem_map.mp hm
        rw [← hx]; simp)
    (by simpa using hr) hj default]
  rw [getD_range_map _ hr]
  exact getD_map_apply _ cols hj default []

theorem ravelFlatF_matrix_getD [Inhabited α] (r k : Nat) (flat : List α)
    (hlen : flat.length = r * k) {t j : Nat} (ht : t < r) (hj : j < k) :
    (ravelFlatF ⟨[r, k], flat⟩).getD (t + r * j) default = flat.getD (t * k + j) default := by
  unfold ravelFlatF
  have hu : t + r * j < flat.length := by
    rw [hlen]
    calc t + r * j < r + r * j := by omega
      _ = r * (j + 1) := by ring
      _ ≤ r * k := Nat.mul_le_mul_left _ (by omega)
  rw [getD_range_map _ hu]
  have hmod : (t + r * j) % r = t := by
    rw [Nat.add_mul_mod_self_left]; exact Nat.mod_eq_of_lt ht
  have hdiv : (t + r * j) / r = j := by
    rw [Nat.add_mul_div_left _ _ (by omega : 0 < r), Nat.div_eq_of_lt ht]; omega
  show flat.getD (cRank [r, k] (fUnrank [r, k] (t + r * j))) default = _
  rw [show fUnrank [r, k] (t + r * j) =
      ((t + r * j) % r) :: ((t + r * j) / r % k) :: [] from rfl, hmod, hdiv,
    Nat.mod_eq_of_lt hj]
  show flat.getD (t * shapeProd [k] + (j * shapeProd ([] : List Nat) + 0)) default = _
  have : t * shapeProd [k] + (j * shapeProd ([] : List Nat) + 0) = t * k + j := by
    show t * (k * 1) + (j * 1 + 0) = t * k + j
    ring
  rw [this]

theorem ravelFlatF_vec_getD [Inhabited α] (n : Nat) (flat : List α)
    (hlen : flat.length = n) {u : Nat} (hu : u < n) :
    (ravelFlatF ⟨[n], flat⟩).getD u default = flat.getD u default := by
  unfold ravelFlatF
  have hu' : u < (⟨[n], flat⟩ : NpArray α).flat.length := by
    show u < flat.length
    omega
  rw [getD_range_map _ hu']
  show flat.getD (cRank [n] (fUnrank [n] u)) default = _
  rw [show fUnrank [n] u = (u % n) :: [] from rfl, Nat.mod_eq_of_lt hu]
  show flat.getD (u * shapeProd ([] : List Nat) + 0) default = _
  have : u * shapeProd ([] : List Nat) + 0 = u := by
    show u * 1 + 0 = u; ring
  rw [this]

theorem reshapeNegOneF_spec [Inhabited α] (s : List Nat) (a : NpArray α)
    (hp : shapeProd s ≠ 0) (hdvd : shapeProd s ∣ a.flat.length) :
    ∃ b, reshapeNegOneF s a = some b ∧
      b.shape = (a.flat.length / shapeProd s) :: s ∧
      b.flat.length = a.flat.length ∧
      ∀ t (idx : List Nat), t < a.flat.length / shapeProd s → isValid s idx →
        b.atIdx (t :: idx) =
          (ravelFlatF a).getD (t + (a.flat.length / shapeProd s) * fRank s idx) default := by
  unfold reshapeNegOneF
  rw [if_pos ⟨hp, hdvd⟩]
  set total := a.flat.length with htotal
  set p := shapeProd s with hps
  set d := total / p with hd
  refine ⟨_, rfl, rfl, by simp, ?_⟩
  intro t idx ht hidx
  have hvalid : isValid (d :: s) (t :: idx) := ⟨ht, hidx⟩
  have hcr : cRank (d :: s) (t :: idx) < total := by
    have := cRank_lt hvalid
    calc cRank (d :: s) (t :: idx) < shapeProd (d :: s) := this
      _ = d * p := rfl
      _ = total := Nat.div_mul_cancel hdvd
  show ((List.range total).map _).getD (cRank (d :: s) (t :: idx)) default = _
  rw [getD_range_map _ hcr, cUnrank_cRank hvalid]
  rfl

theorem pyStart_neg_of_le (d L : Nat) (h1 : 1 ≤ d) (h2 : d ≤ L) :
    pyStart (-(d : Int)) L = L - d := by
  unfold pyStart
  rw [if_pos (by omega)]
  omega

theorem lookupsAll_length (chains : List (String × List α)) :
    ∀ (ks : List String) (cols : List (List α)),
      lookupsAll chains ks = some cols → cols.length = ks.length := by
  intro ks
  induction ks with
  | nil => intro cols h; cases h; rfl
  | cons k ks ih =>
    intro cols h
    unfold lookupsAll at h
    cases hc : lookupCol chains k with
    | none => rw [hc] at h; cases h
    | some c =>
      rw [hc] at h
      cases hcs : lookupsAll chains ks with
      | none => rw [hcs] at h; cases h
      | some cs =>
        rw [hcs] at h
        cases h
        simp [ih cs hcs]

theorem chainArray_many_spec [Inhabited α] (k1 k2 : String) (krest : List String)
    (s0 : Nat) (s' : List Nat) (h : ChainHolder α) (cols : List (List α)) (L d : Nat)
    (hlook : lookupsAll h.chains (k1 :: k2 :: krest) = some cols)
    (hcl : ∀ c ∈ cols, c.length = L)
    (hk : cols.length = shapeProd (s0 :: s'))
    (hd1 : 1 ≤ d) (hdL : d ≤ L) :
    ∃ res, chainArray (k1 :: k2 :: krest) (s0 :: s') h (d : Int) = .ok res ∧
      res.shape = d :: s0 :: s' ∧
      res.flat.length = shapeProd (d :: s0 :: s') ∧
      ∀ t (idx : List Nat), t < d → isValid (s0 :: s') idx →
        res.atIdx (t :: idx) =
          (cols.getD (fRank (s0 :: s') idx) []).getD (L - d + t) default := by
  have hklen : cols.length = krest.length + 2 := by
    rw [lookupsAll_length h.chains _ _ hlook]; simp
  have hk2 : 2 ≤ cols.length := by omega
  have hp : shapeProd (s0 :: s') ≠ 0 := by omega
  have hig : itemGet h.chains (k1 :: k2 :: krest) = .ok (.many cols) := by
    show (match lookupsAll h.chains (k1 :: k2 :: krest) with
      | some cols => Except.ok (GotVal.many cols)
      | none => Except.error PyErr.keyError) = _
    rw [hlook]
  obtain ⟨c0, ctail, hcons⟩ : ∃ c0 ctail, cols = c0 :: ctail := by
    cases cols with
    | nil => simp at hk2
    | cons c0 ctail => exact ⟨c0, ctail, rfl⟩
  have hc0 : c0.length = L := hcl c0 (by rw [hcons]; exact List.mem_cons_self _ _)
  have hstack : columnStackCols cols = .ok ⟨[L, cols.length], matFlat L cols⟩ := by
    rw [hcons]
    show (if (c0 :: ctail).all (fun c => c.length = c0.length) then
      Except.ok (⟨[c0.length, (c0 :: ctail).length], matFlat c0.length (c0 :: ctail)⟩ :
        NpArray α)
      else Except.error PyErr.valueError) = _
    rw [if_pos, hc0]
    rw [List.all_eq_true]
    intro c hm
    rw [hc0]
    simp only [decide_eq_true_eq]
    exact hcl c (by rw [hcons]; exact hm)
  have hslice : sliceRows (d : Int) (⟨[L, cols.length], matFlat L cols⟩ : NpArray α) =
      ⟨[d, cols.length], (matFlat L cols).drop ((L - d) * cols.length)⟩ := by
    show (⟨(L - pyStart (-(d : Int)) L) :: [cols.length],
      (matFlat L cols).drop (pyStart (-(d : Int)) L * shapeProd [cols.length])⟩ :
        NpArray α) = _
    rw [pyStart_neg_of_le d L hd1 hdL]
    have h1 : L - (L - d) = d := by omega
    have h2 : shapeProd [cols.length] = cols.length := by simp [shapeProd]
    rw [h1, h2]
  have hdroplen : ((matFlat L cols).drop ((L - d) * cols.length)).length =
      d * cols.length := by
    rw [List.length_drop, matFlat_length, ← Nat.sub_mul]
    congr 1
    omega
  have hdvd : shapeProd (s0 :: s') ∣
      ((⟨[d, cols.length], (matFlat L cols).drop ((L - d) * cols.length)⟩ :
        NpArray α)).flat.length := by
    show shapeProd (s0 :: s') ∣ ((matFlat L cols).drop ((L - d) * cols.length)).length
    rw [hdroplen, ← hk]
    exact dvd_mul_left cols.length d
  obtain ⟨b, hb, hbshape, hblen, hbat⟩ := reshapeNegOneF_spec (s0 :: s')
    ⟨[d, cols.length], (matFlat L cols).drop ((L - d) * cols.length)⟩ hp hdvd
  have hq : ((⟨[d, cols.length], (matFlat L cols).drop ((L - d) * cols.length)⟩ :
      NpArray α)).flat.length / shapeProd (s0 :: s') = d := by
    show ((matFlat L cols).drop ((L - d) * cols.length)).length / shapeProd (s0 :: s') = d
    rw [hdroplen, ← hk]
    exact Nat.mul_div_cancel d (by omega)
  have hchain : chainArray (k1 :: k2 :: krest) (s0 :: s') h (d : Int) = .ok b := by
    unfold chainArray
    rw [hig]
    show (match columnStackCols cols with
      | .error e => Except.error e
      | .ok stacked =>
        match reshapeNegOneF (s0 :: s') (sliceRows (d : Int) stacked) with
        | some a => Except.ok a
        | none => Except.error PyErr.valueError) = Except.ok b
    rw [hstack]
    show (match reshapeNegOneF (s0 :: s') (sliceRows (d : Int)
        (⟨[L, cols.length], matFlat L cols⟩ : NpArray α)) with
      | some a => Except.ok a
      | none => Except.error PyErr.valueError) = Except.ok b
    rw [hslice, hb]
  refine ⟨b, hchain, ?_, ?_, ?_⟩
  · rw [hbshape, hq]
  · rw [hblen]
    show ((matFlat L cols).drop ((L - d) * cols.length)).length = shapeProd (d :: s0 :: s')
    rw [hdroplen]
    show d * cols.length = d * shapeProd (s0 :: s')
    rw [hk]
  · intro t idx ht hidx
    have hj : fRank (s0 :: s') idx < cols.length := by
      rw [hk]
      exact fRank_lt hidx
    rw [hbat t idx (by rw [hq]; exact ht) hidx, hq]
    rw [ravelFlatF_matrix_getD d cols.length _ hdroplen ht hj]
    rw [getD_drop]
    have hix : (L - d) * cols.length + (t * cols.length + fRank (s0 :: s') idx) =
        (L - d + t) * cols.length + fRank (s0 :: s') idx := by ring
    rw [hix]
    exact matFlat_getD L cols (by omega) hj

theorem chainArray_one_spec [Inhabited α] (key : String) (h : ChainHolder α)
    (col : List α) (L d : Nat)
    (hlook : lookupCol h.chains key = some col) (hcl : col.length = L)
    (hd1 : 1 ≤ d) (hdL : d ≤ L) :
    ∃ res, chainArray [key] [] h (d : Int) = .ok res ∧
      res.shape = [d] ∧ res.flat.length = d ∧
      ∀ t, t < d → res.atIdx [t] = col.getD (L - d + t) default := by
  have hig : itemGet h.chains [key] = .ok (.one col) := by
    show (match lookupCol h.chains key with
      | some col => Except.ok (GotVal.one col)
      | none => Except.error PyErr.keyError) = _
    rw [hlook]
  have hslice : sliceRows (d : Int) (⟨[col.length], col⟩ : NpArray α) =
      ⟨[d], col.drop (L - d)⟩ := by
    show (⟨[col.length - pyStart (-(d : Int)) col.length],
      col.drop (pyStart (-(d : Int)) col.length * shapeProd [])⟩ : NpArray α) = _
    rw [hcl, pyStart_neg_of_le d L hd1 hdL]
    have h1 : L - (L - d) = d := by omega
    have h2 : (L - d) * shapeProd [] = L - d := by simp [shapeProd]
    rw [h1, h2]
  have hdroplen : (col.drop (L - d)).length = d := by
    rw [List.length_drop, hcl]
    omega
  have hdvd : shapeProd ([] : List Nat) ∣
      ((⟨[d], col.drop (L - d)⟩ : NpArray α)).flat.length := by
    simp [shapeProd]
  obtain ⟨b, hb, hbshape, hblen, hbat⟩ := reshapeNegOneF_spec []
    ⟨[d], col.drop (L - d)⟩ (by simp [shapeProd]) hdvd
  have hq : ((⟨[d], col.drop (L - d)⟩ : NpArray α)).flat.length /
      shapeProd ([] : List Nat) = d := by
    show (col.drop (L - d)).length / shapeProd ([] : List Nat) = d
    rw [hdroplen]
    simp [shapeProd]
  have hchain : chainArray [key] [] h (d : Int) = .ok b := by
    unfold chainArray
    rw [hig]
    show (match reshapeNegOneF [] (sliceRows (d : Int)
        (⟨[col.length], col⟩ : NpArray α)) with
      | some a => Except.ok a
      | none => Except.error PyErr.valueError) = Except.ok b
    rw [hslice, hb]
  refine ⟨b, hchain, ?_, ?_, ?_⟩
  · rw [hbshape, hq]
  · rw [hblen]
    exact hdroplen
  · intro t ht
    have hbt := hbat t [] (by rw [hq]; exact ht) trivial
    rw [hq] at hbt
    rw [hbt]
    have hfr : t + d * fRank [] [] = t := by
      show t + d * 0 = t
      omega
    rw [hfr, ravelFlatF_vec_getD d (col.drop (L - d)) hdroplen ht, getD_drop]

theorem stackChains_spec [Inhabited α] (arys : List (NpArray α)) (sh : List Nat)
    (hne : arys ≠ [])
    (hsh : ∀ a ∈ arys, a.shape = sh)
    (hfl : ∀ a ∈ arys, a.flat.length = shapeProd sh) :
    ∃ A, stackChains arys = .ok A ∧ A.shape = arys.length :: sh ∧
      ∀ c (idx : List Nat), c < arys.length → isValid sh idx →
        A.atIdx (c :: idx) = (arys.getD c default).atIdx idx := by
  obtain ⟨a0, atail, hcons⟩ : ∃ a0 atail, arys = a0 :: atail := by
    cases arys with
    | nil => exact absurd rfl hne
    | cons a0 atail => exact ⟨a0, atail, rfl⟩
  have ha0 : a0.shape = sh := hsh a0 (by rw [hcons]; exact List.mem_cons_self _ _)
  have hstackEq : stackChains arys =
      .ok ⟨arys.length :: sh, (arys.map (fun a => a.flat)).flatten⟩ := by
    conv_lhs => rw [hcons]
    show (if (a0 :: atail).all (fun a => a.shape = a0.shape) then
      Except.ok (⟨(a0 :: atail).length :: a0.shape,
        ((a0 :: atail).map (fun a => a.flat)).flatten⟩ : NpArray α)
      else Except.error PyErr.valueError) = _
    rw [if_pos]
    · rw [ha0, ← hcons]
    · rw [List.all_eq_true]
      intro a hm
      simp only [decide_eq_true_eq]
      rw [hsh a (by rw [hcons]; exact hm), ha0]
  refine ⟨_, hstackEq, rfl, ?_⟩
  intro c idx hc hidx
  show ((arys.map (fun a => a.flat)).flatten).getD
    (cRank (arys.length :: sh) (c :: idx)) default = _
  have hrows : ∀ row ∈ arys.map (fun a => a.flat), row.length = shapeProd sh := by
    intro row hm
    obtain ⟨a, ha, rfl⟩ := List.mem_map.mp hm
    exact hfl a ha
  have hcr : cRank sh idx < shapeProd sh := cRank_lt hidx
  show ((arys.map (fun a => a.flat)).flatten).getD
    (c * shapeProd sh + cRank sh idx) default = _
  rw [getD_flatten_const (shapeProd sh) _ hrows (by simpa using hc) hcr default]
  rw [getD_map_apply (fun a => a.flat) arys (by omega) [] default]
  show (arys.getD c default).flat.getD (cRank sh idx) default = _
  unfold NpArray.atIdx
  rw [hsh (arys.getD c default) ?_]
  rw [List.getD_eq_getElem?_getD, List.getElem?_eq_getElem hc]
  exact List.getElem_mem hc

theorem listMapE_ok_of_forall {β γ : Type} (f : β → Except PyErr γ) (g : β → γ) :
    ∀ l : List β, (∀ x ∈ l, f x = .ok (g x)) → listMapE f l = .ok (l.map g) := by
  intro l
  induction l with
  | nil => intro _; rfl
  | cons x xs ih =>
    intro hall
    unfold listMapE
    rw [hall x (List.mem_cons_self _ _), ih (fun y hy => hall y (List.mem_cons_of_mem _ hy))]
    rfl

theorem listMapE_entry_find [Inhabited α] (samples : List (ChainHolder α)) (fit : Fit α) :
    ∀ (l : List String) (r : List (String × NpArray α × Option String)),
      listMapE (extractEntry samples fit) l = .ok r →
      ∀ v ∈ l, ∃ a, extractVar samples (ndrawsOf fit) fit v = .ok a ∧
        r.find? (fun p => p.1 == v) =
          some (v, a, ((infer_dtypes fit).find? (fun p => p.1 == v)).map (fun p => p.2)) := by
  intro l
  induction l with
  | nil => intro r _ v hv; cases hv
  | cons w ws ih =>
    intro r hok v hv
    unfold listMapE at hok
    cases hFw : extractVar samples (ndrawsOf fit) fit w with
    | error e =>
      rw [show extractEntry samples fit w = .error e by
        unfold extractEntry; rw [hFw]] at hok
      cases hok
    | ok aw =>
      rw [show extractEntry samples fit w = .ok (w, aw,
          ((infer_dtypes fit).find? (fun p => p.1 == w)).map (fun p => p.2)) by
        unfold extractEntry; rw [hFw]] at hok
      cases hrest : listMapE (extractEntry samples fit) ws with
      | error e => rw [hrest] at hok; cases hok
      | ok r' =>
        rw [hrest] at hok
        cases hok
        by_cases hvw : v = w
        · subst hvw
          exact ⟨aw, hFw, by simp [List.find?]⟩
        · obtain ⟨a, hFa, hfind⟩ := ih r' hrest v
            (by cases hv with
              | head => exact absurd rfl hvw
              | tail _ h => exact h)
          refine ⟨a, hFa, ?_⟩
          rw [List.find?]
          have hbf : ((w, aw,
              ((infer_dtypes fit).find? (fun p => p.1 == w)).map (fun p => p.2)).1 == v) =
              false := by
            simp only []
            exact beq_false_of_ne (fun hc => hvw hc.symm)
          rw [hbf]
          exact hfind

theorem listMapE_entry_keys [Inhabited α] (samples : List (ChainHolder α)) (fit : Fit α) :
    ∀ (l : List String) (r : List (String × NpArray α × Option String)),
      listMapE (extractEntry samples fit) l = .ok r →
      ∀ p ∈ r, p.1 ∈ l := by
  intro l
  induction l with
  | nil => intro r hok p hp; cases hok; cases hp
  | cons w ws ih =>
    intro r hok p hp
    unfold listMapE at hok
    cases hFw : extractVar samples (ndrawsOf fit) fit w with
    | error e =>
      rw [show extractEntry samples fit w = .error e by
        unfold extractEntry; rw [hFw]] at hok
      cases hok
    | ok aw =>
      rw [show extractEntry samples fit w = .ok (w, aw,
          ((infer_dtypes fit).find? (fun p => p.1 == w)).map (fun p => p.2)) by
        unfold extractEntry; rw [hFw]] at hok
      cases hrest : listMapE (extractEntry samples fit) ws with
      | error e => rw [hrest] at hok; cases hok
      | ok r' =>
        rw [hrest] at hok
        cases hok
        cases hp with
        | head => exact List.mem_cons_self _ _
        | tail _ h => exact List.mem_cons_of_mem _ (ih r' hrest p h)

/-- The value a successful per-chain pipeline run produces (used only to
name the mapped results in proofs). -/
def chainPick [Inhabited α] (keys : List String) (shape : List Nat)
    (p : ChainHolder α × Int) : NpArray α :=
  match chainArray keys shape p.1 p.2 with
  | .ok a => a
  | .error _ => default

theorem extractVar_many_spec [Inhabited α] (fit : Fit α) (var : String)
    (hs : List (ChainHolder α)) (ndraws : List Int)
    (k1 k2 : String) (krest : List String) (s0 : Nat) (s' : List Nat)
    (colsOf : Nat → List (List α)) (LOf : Nat → Nat) (d : Nat)
    (hkeys : keysFor fit var = k1 :: k2 :: krest)
    (hshape : shapeFor fit var = s0 :: s')
    (hlen : ndraws.length = hs.length) (hne : hs ≠ [])
    (hlook : ∀ c, c < hs.length →
      lookupsAll ((hs.getD c default).chains) (k1 :: k2 :: krest) = some (colsOf c))
    (hcollen : ∀ c, c < hs.length → ∀ col ∈ colsOf c, col.length = LOf c)
    (hkc : ∀ c, c < hs.length → (colsOf c).length = shapeProd (s0 :: s'))
    (hnd : ∀ c, c < hs.length → ndraws.getD c 0 = (d : Int))
    (hd1 : 1 ≤ d) (hdL : ∀ c, c < hs.length → d ≤ LOf c) :
    ∃ A, extractVar hs ndraws fit var = .ok A ∧
      A.shape = hs.length :: d :: s0 :: s' ∧
      ∀ c t (idx : List Nat), c < hs.length → t < d → isValid (s0 :: s') idx →
        A.atIdx (c :: t :: idx) =
          ((colsOf c).getD (fRank (s0 :: s') idx) []).getD (LOf c - d + t) default := by
  have hziplen : (hs.zip ndraws).length = hs.length := by
    rw [List.length_zip, hlen, Nat.min_self]
  have hchainspec : ∀ c, c < hs.length →
      chainArray (k1 :: k2 :: krest) (s0 :: s') (hs.getD c default) (d : Int) =
        .ok (chainPick (k1 :: k2 :: krest) (s0 :: s') (hs.getD c default, (d : Int))) ∧
      (chainPick (k1 :: k2 :: krest) (s0 :: s') (hs.getD c default, (d : Int))).shape =
        d :: s0 :: s' ∧
      (chainPick (k1 :: k2 :: krest) (s0 :: s')
        (hs.getD c default, (d : Int))).flat.length = shapeProd (d :: s0 :: s') ∧
      ∀ t (idx : List Nat), t < d → isValid (s0 :: s') idx →
        (chainPick (k1 :: k2 :: krest) (s0 :: s')
          (hs.getD c default, (d : Int))).atIdx (t :: idx) =
          ((colsOf c).getD (fRank (s0 :: s') idx) []).getD (LOf c - d + t) default := by
    intro c hc
    obtain ⟨res, hres, hsh', hfl', hat'⟩ := chainArray_many_spec k1 k2 krest s0 s'
      (hs.getD c default) (colsOf c) (LOf c) d (hlook c hc) (hcollen c hc) (hkc c hc)
      hd1 (hdL c hc)
    have hpick : chainPick (k1 :: k2 :: krest) (s0 :: s')
        (hs.getD c default, (d : Int)) = res := by
      unfold chainPick
      rw [hres]
    rw [hpick]
    exact ⟨hres, hsh', hfl', hat'⟩
  have hgetDs : ∀ c, c < hs.length →
      (hs.zip ndraws).getD c (default, 0) = (hs.getD c default, ndraws.getD c 0) := by
    intro c hc
    have hcn : c < ndraws.length := by omega
    have hcz : c < (hs.zip ndraws).length := by omega
    have h1 : hs.getD c default = hs[c] := List.getD_eq_getElem hs default hc
    have h2 : ndraws.getD c 0 = ndraws[c] := List.getD_eq_getElem ndraws 0 hcn
    have h3 : (hs.zip ndraws).getD c (default, 0) = (hs.zip ndraws)[c] :=
      List.getD_eq_getElem (hs.zip ndraws) (default, 0) hcz
    rw [h1, h2, h3, List.getElem_zip]
  have hfg : ∀ x ∈ hs.zip ndraws,
      chainArray (k1 :: k2 :: krest) (s0 :: s') x.1 x.2 =
        .ok (chainPick (k1 :: k2 :: krest) (s0 :: s') x) := by
    intro x hx
    obtain ⟨c, hcz, hxeq⟩ := List.mem_iff_getElem.mp hx
    have hc : c < hs.length := by omega
    have hxval : x = (hs.getD c default, ndraws.getD c 0) := by
      rw [← hgetDs c hc, List.getD_eq_getElem (hs.zip ndraws) (default, 0) hcz, hxeq]
    rw [hxval, hnd c hc]
    exact (hchainspec c hc).1
  have hmapE := listMapE_ok_of_forall
    (fun p => chainArray (k1 :: k2 :: krest) (s0 :: s') p.1 p.2)
    (chainPick (k1 :: k2 :: krest) (s0 :: s')) (hs.zip ndraws) hfg
  have harylen : ((hs.zip ndraws).map
      (chainPick (k1 :: k2 :: krest) (s0 :: s'))).length = hs.length := by
    rw [List.length_map, hziplen]
  have haryget : ∀ c, c < hs.length →
      ((hs.zip ndraws).map (chainPick (k1 :: k2 :: krest) (s0 :: s'))).getD c default =
        chainPick (k1 :: k2 :: krest) (s0 :: s') (hs.getD c default, (d : Int)) := by
    intro c hc
    rw [getD_map_apply _ _ (by omega) default (default, 0)]
    rw [hgetDs c hc, hnd c hc]
  have harymem : ∀ a ∈ (hs.zip ndraws).map (chainPick (k1 :: k2 :: krest) (s0 :: s')),
      a.shape = d :: s0 :: s' ∧ a.flat.length = shapeProd (d :: s0 :: s') := by
    intro a ha
    obtain ⟨x, hx, rfl⟩ := List.mem_map.mp ha
    obtain ⟨c, hcz, hxeq⟩ := List.mem_iff_getElem.mp hx
    have hc : c < hs.length := by omega
    have hxval : x = (hs.getD c default, ndraws.getD c 0) := by
      rw [← hgetDs c hc, List.getD_eq_getElem (hs.zip ndraws) (default, 0) hcz, hxeq]
    rw [hxval, hnd c hc]
    exact ⟨(hchainspec c hc).2.1, (hchainspec c hc).2.2.1⟩
  obtain ⟨A, hA, hAshape, hAat⟩ := stackChains_spec
    ((hs.zip ndraws).map (chainPick (k1 :: k2 :: krest) (s0 :: s'))) (d :: s0 :: s')
    (by intro hcon
        have h0 := harylen
        rw [hcon] at h0
        cases hemp : hs with
        | nil => exact hne hemp
        | cons y ys =>
          rw [hemp] at h0
          simp at h0)
    (fun a ha => (harymem a ha).1)
    (fun a ha => (harymem a ha).2)
  refine ⟨A, ?_, by rw [hAshape, harylen], ?_⟩
  · unfold extractVar
    rw [hkeys, hshape, hmapE]
    exact hA
  · intro c t idx hc ht hidx
    rw [hAat c (t :: idx) (by omega) ⟨ht, hidx⟩, haryget c hc]
    exact (hchainspec c hc).2.2.2 t idx ht hidx

theorem extractVar_one_spec [Inhabited α] (fit : Fit α) (var : String)
    (hs : List (ChainHolder α)) (ndraws : List Int) (key : String)
    (colOf : Nat → List α) (LOf : Nat → Nat) (d : Nat)
    (hkeys : keysFor fit var = [key])
    (hshape : shapeFor fit var = [])
    (hlen : ndraws.length = hs.length) (hne : hs ≠ [])
    (hlook : ∀ c, c < hs.length →
      lookupCol ((hs.getD c default).chains) key = some (colOf c))
    (hcollen : ∀ c, c < hs.length → (colOf c).length = LOf c)
    (hnd : ∀ c, c < hs.length → ndraws.getD c 0 = (d : Int))
    (hd1 : 1 ≤ d) (hdL : ∀ c, c < hs.length → d ≤ LOf c) :
    ∃ A, extractVar hs ndraws fit var = .ok A ∧
      A.shape = [hs.length, d] ∧
      ∀ c t, c < hs.length → t < d →
        A.atIdx [c, t] = (colOf c).getD (LOf c - d + t) default := by
  have hziplen : (hs.zip ndraws).length = hs.length := by
    rw [List.length_zip, hlen, Nat.min_self]
  have hchainspec : ∀ c, c < hs.length →
      chainArray [key] [] (hs.getD c default) (d : Int) =
        .ok (chainPick [key] [] (hs.getD c default, (d : Int))) ∧
      (chainPick [key] [] (hs.getD c default, (d : Int))).shape = [d] ∧
      (chainPick [key] [] (hs.getD c default, (d : Int))).flat.length = d ∧
      ∀ t, t < d →
        (chainPick [key] [] (hs.getD c default, (d : Int))).atIdx [t] =
          (colOf c).getD (LOf c - d + t) default := by
    intro c hc
    obtain ⟨res, hres, hsh', hfl', hat'⟩ := chainArray_one_spec key
      (hs.getD c default) (colOf c) (LOf c) d (hlook c hc) (hcollen c hc)
      hd1 (hdL c hc)
    have hpick : chainPick [key] [] (hs.getD c default, (d : Int)) = res := by
      unfold chainPick
      rw [hres]
    rw [hpick]
    exact ⟨hres, hsh', hfl', hat'⟩
  have hgetDs : ∀ c, c < hs.length →
      (hs.zip ndraws).getD c (default, 0) = (hs.getD c default, ndraws.getD c 0) := by
    intro c hc
    have hcn : c < ndraws.length := by omega
    have hcz : c < (hs.zip ndraws).length := by omega
    have h1 : hs.getD c default = hs[c] := List.getD_eq_getElem hs default hc
    have h2 : ndraws.getD c 0 = ndraws[c] := List.getD_eq_getElem ndraws 0 hcn
    have h3 : (hs.zip ndraws).getD c (default, 0) = (hs.zip ndraws)[c] :=
      List.getD_eq_getElem (hs.zip ndraws) (default, 0) hcz
    rw [h1, h2, h3, List.getElem_zip]
  have hfg : ∀ x ∈ hs.zip ndraws,
      chainArray [key] [] x.1 x.2 = .ok (chainPick [key] [] x) := by
    intro x hx
    obtain ⟨c, hcz, hxeq⟩ := List.mem_iff_getElem.mp hx
    have hc : c < hs.length := by omega
    have hxval : x = (hs.getD c default, ndraws.getD c 0) := by
      rw [← hgetDs c hc, List.getD_eq_getElem (hs.zip ndraws) (default, 0) hcz, hxeq]
    rw [hxval, hnd c hc]
    exact (hchainspec c hc).1
  have hmapE := listMapE_ok_of_forall (fun p => chainArray [key] [] p.1 p.2)
    (chainPick [key] []) (hs.zip ndraws) hfg
  have harylen : ((hs.zip ndraws).map (chainPick [key] [])).length = hs.length := by
    rw [List.length_map, hziplen]
  have haryget : ∀ c, c < hs.length →
      ((hs.zip ndraws).map (chainPick [key] [])).getD c default =
        chainPick [key] [] (hs.getD c default, (d : Int)) := by
    intro c hc
    rw [getD_map_apply _ _ (by omega) default (default, 0)]
    rw [hgetDs c hc, hnd c hc]
  have harymem : ∀ a ∈ (hs.zip ndraws).map (chainPick [key] []),
      a.shape = [d] ∧ a.flat.length = shapeProd [d] := by
    intro a ha
    obtain ⟨x, hx, rfl⟩ := List.mem_map.mp ha
    obtain ⟨c, hcz, hxeq⟩ := List.mem_iff_getElem.mp hx
    have hc : c < hs.length := by omega
    have hxval : x = (hs.getD c default, ndraws.getD c 0) := by
      rw [← hgetDs c hc, List.getD_eq_getElem (hs.zip ndraws) (default, 0) hcz, hxeq]
    rw [hxval, hnd c hc]
    refine ⟨(hchainspec c hc).2.1, ?_⟩
    rw [(hchainspec c hc).2.2.1]
    simp [shapeProd]
  obtain ⟨A, hA, hAshape, hAat⟩ := stackChains_spec
    ((hs.zip ndraws).map (chainPick [key] [])) [d]
    (by intro hcon
        have h0 := harylen
        rw [hcon] at h0
        cases hemp : hs with
        | nil => exact hne hemp
        | cons y ys =>
          rw [hemp] at h0
          simp at h0)
    (fun a ha => (harymem a ha).1)
    (fun a ha => (harymem a ha).2)
  refine ⟨A, ?_, by rw [hAshape, harylen], ?_⟩
  · unfold extractVar
    rw [hkeys, hshape, hmapE]
    exact hA
  · intro c t hc ht
    rw [hAat c [t] (by omega) ⟨ht, trivial⟩, haryget c hc]
    exact (hchainspec c hc).2.2.2 t ht

/-- On a usable fit, `get_draws` is exactly the extraction loop over the
resolved selection. -/
theorem get_draws_eq_loop [Inhabited α] (fit : Fit α) (vsel : VarsArg)
    (ignore : List String) (hs : List (ChainHolder α))
    (hm1 : fit.mode ≠ 1) (hm2 : fit.mode ≠ 2) (hsome : fit.sim.samples = some hs) :
    get_draws fit vsel ignore =
      listMapE (extractEntry hs fit) (finalVars fit vsel ignore) := by
  unfold get_draws
  rw [if_neg hm1, if_neg]
  · rw [hsome]
    rfl
  · intro hcon
    cases hcon with
    | inl h => exact hm2 h
    | inr h =>
      rw [hsome] at h
      cases h

theorem get_draws_find [Inhabited α] (fit : Fit α) (vsel : VarsArg)
    (ignore : List String) (hs : List (ChainHolder α))
    (hm1 : fit.mode ≠ 1) (hm2 : fit.mode ≠ 2) (hsome : fit.sim.samples = some hs)
    (v : String) (hv : v ∈ finalVars fit vsel ignore)
    (data : List (String × NpArray α × Option String))
    (hok : get_draws fit vsel ignore = .ok data) :
    ∃ a, extractVar hs (ndrawsOf fit) fit v = .ok a ∧
      data.find? (fun p => p.1 == v) =
        some (v, a, ((infer_dtypes fit).find? (fun p => p.1 == v)).map (fun p => p.2)) := by
  rw [get_draws_eq_loop fit vsel ignore hs hm1 hm2 hsome] at hok
  exact listMapE_entry_find hs fit (finalVars fit vsel ignore) data hok v hv

/-! ### Claim theorems -/

/-- C3: whenever the fit is in gradient-test mode (`mode = 1`), in
`mode = 2`, or has no sample buffers, `get_draws` raises a typed
`AttributeError` for every `variables` and `ignore` argument; no output
mapping is produced. -/
theorem C3_unusable_source_error [Inhabited α] (fit : Fit α) (vsel : VarsArg)
    (ignore : List String)
    (h : fit.mode = 1 ∨ fit.mode = 2 ∨ fit.sim.samples = none) :
    ∃ msg, get_draws fit vsel ignore = .error (PyErr.attrError msg) := by
  unfold get_draws
  by_cases h1 : fit.mode = 1
  · rw [if_pos h1]
    exact ⟨_, rfl⟩
  · rw [if_neg h1, if_pos]
    · exact ⟨_, rfl⟩
    · rcases h with h | h | h
      · exact absurd h h1
      · exact Or.inl h
      · right
        rw [h]
        rfl

/-- Gradient-test-only fixture for the C3 witness. -/
def fitTG : Fit Int :=
  { mode := 1,
    sim := { pars_oi := ["v"], dims_oi := [[]], fnames_oi := ["v"],
             n_save := [1], warmup2 := [0], samples := some [⟨[("v", [7])]⟩] },
    model_pars := ["v"], stancode := "" }

theorem C3_unusable_source_error_witness :
    ∃ msg, get_draws fitTG VarsArg.nv [] = .error (PyErr.attrError msg) :=
  C3_unusable_source_error fitTG VarsArg.nv [] (Or.inl rfl)

/-- C7: a name passed in `ignore` is never a key of the mapping returned
by `get_draws`, for every fit and every variable selection. -/
theorem C7_ignore_excludes [Inhabited α] (fit : Fit α) (vsel : VarsArg)
    (ignore : List String) (v : String)
    (data : List (String × NpArray α × Option String))
    (hv : v ∈ ignore) (hok : get_draws fit vsel ignore = .ok data) :
    ∀ p ∈ data, p.1 ≠ v := by
  intro p hp
  by_cases h1 : fit.mode = 1
  · rw [get_draws, if_pos h1] at hok
    cases hok
  by_cases h2 : fit.mode = 2
  · rw [get_draws, if_neg h1, if_pos (Or.inl h2)] at hok
    cases hok
  cases hsamp : fit.sim.samples with
  | none =>
    rw [get_draws, if_neg h1, if_pos] at hok
    · cases hok
    · right
      rw [hsamp]
      rfl
  | some hs =>
    rw [get_draws_eq_loop fit vsel ignore hs h1 h2 hsamp] at hok
    have hkey : p.1 ∈ finalVars fit vsel ignore :=
      listMapE_entry_keys hs fit (finalVars fit vsel ignore) data hok p hp
    intro hcon
    have : p.1 ∈ (dropZeroSized fit.sim.pars_oi fit.sim.dims_oi
        (resolveVars fit vsel)) ∧ p.1 ∉ ignore := by
      have := List.mem_filter.mp hkey
      exact ⟨this.1, by simpa using this.2⟩
    rw [hcon] at this
    exact this.2 hv

/-- Fixture with `lp__` among the declared variables, for the C7 witness. -/
def fitLp : Fit Int :=
  { mode := 0,
    sim := { pars_oi := ["v", "lp__"], dims_oi := [[], []], fnames_oi := ["v", "lp__"],
             n_save := [2], warmup2 := [1],
             samples := some [⟨[("v", [10, 20]), ("lp__", [1, 2])]⟩] },
    model_pars := ["v"], stancode := "" }

theorem C7_ignore_excludes_witness :
    ("lp__" : String) ∈ ["lp__"] ∧
      ∀ p ∈ [(("v" : String), (⟨[1, 1], [20]⟩ : NpArray Int), (none : Option String))],
        p.1 ≠ "lp__" :=
  ⟨by decide,
    C7_ignore_excludes fitLp VarsArg.nv ["lp__"] "lp__" _ (by decide) rfl⟩

theorem shapeProd_eq_zero_iff (l : List Nat) : shapeProd l = 0 ↔ 0 ∈ l := by
  induction l with
  | nil => simp [shapeProd]
  | cons s ss ih =>
    show s * shapeProd ss = 0 ↔ 0 ∈ s :: ss
    rw [Nat.mul_eq_zero, ih, List.mem_cons]
    constructor
    · rintro (h | h)
      · exact Or.inl h.symm
      · exact Or.inr h
    · rintro (h | h)
      · exact Or.inl h.symm
      · exact Or.inr h

theorem npProd_foldl_zero :
    ∀ (l : List Nat), l.foldl (fun a b => a * b % 18446744073709551616) 0 = 0 := by
  intro l
  induction l with
  | nil => rfl
  | cons b t ih =>
    show t.foldl (fun a b => a * b % 18446744073709551616) (0 * b % 18446744073709551616) = 0
    rw [Nat.zero_mul, Nat.zero_mod]
    exact ih

theorem npProd_zero_of_mem_aux :
    ∀ (l : List Nat) (acc : Nat), 0 ∈ l →
      l.foldl (fun a b => a * b % 18446744073709551616) acc = 0 := by
  intro l
  induction l with
  | nil => intro acc h; cases h
  | cons b t ih =>
    intro acc h
    show t.foldl (fun a b => a * b % 18446744073709551616) (acc * b % 18446744073709551616) = 0
    rcases List.mem_cons.mp h with hb | ht
    · rw [← hb, Nat.mul_zero, Nat.zero_mod]
      exact npProd_foldl_zero t
    · exact ih _ ht

theorem npProd_zero_of_mem (l : List Nat) (h : 0 ∈ l) : npProd l = 0 :=
  npProd_zero_of_mem_aux l 1 h

theorem dropZeroSized_mem_aux (v : String) :
    ∀ (l : List (String × List Nat)) (vars : List String),
      v ∈ vars → (∀ pr ∈ l, pr.1 = v → npProd pr.2 ≠ 0) →
      v ∈ l.foldl
        (fun vs p => if p.1 ∈ vs ∧ npProd p.2 = 0 then vs.erase p.1 else vs) vars := by
  intro l
  induction l with
  | nil => intro vars hv _; exact hv
  | cons p ps ih =>
    intro vars hv hp
    show v ∈ ps.foldl _ (if p.1 ∈ vars ∧ npProd p.2 = 0 then vars.erase p.1 else vars)
    apply ih
    · by_cases hc : p.1 ∈ vars ∧ npProd p.2 = 0
      · rw [if_pos hc]
        have hne : p.1 ≠ v := by
          intro he
          exact hp p (List.mem_cons_self _ _) he hc.2
        exact (List.mem_erase_of_ne (fun he => hne he.symm)).mpr hv
      · rw [if_neg hc]
        exact hv
    · intro pr hpr he
      exact hp pr (List.mem_cons_of_mem _ hpr) he

/-- C10 counterexample: the drop test is the wrapping 64-bit `np.prod`,
so the all-positive declared shape `[65536, 65536, 65536, 65536]` (true
product `2 ^ 64`) compares equal to zero and the variable is removed from
the selection, although no shape entry is an explicit 0 — refuting the
claim that only shapes with an explicit 0 entry are ever removed. -/
theorem C10_zero_drop_cex :
    (0 : Nat) ∉ [65536, 65536, 65536, 65536] ∧
    npProd [65536, 65536, 65536, 65536] = 0 ∧
    dropZeroSized ["v"] [[65536, 65536, 65536, 65536]] ["v"] = [] :=
  ⟨by decide, rfl, rfl⟩

/-- C10 (amended): the zero-total-size drop never removes a variable none
of whose zipped declared shapes has wrapping 64-bit product zero; the
empty product is 1, so a scalar variable (empty declared shape) always
survives, and a shape with an explicit 0 entry always has product zero
(it is removable).  An all-positive shape is removed exactly when its
true product is a multiple of `2 ^ 64` (see the counterexample). -/
theorem C10_zero_drop_spares :
    (∀ (pars : List String) (dims : List (List Nat)) (vars : List String) (v : String),
      v ∈ vars → (∀ pr ∈ pars.zip dims, pr.1 = v → npProd pr.2 ≠ 0) →
      v ∈ dropZeroSized pars dims vars) ∧
    npProd [] = 1 ∧
    (∀ l : List Nat, 0 ∈ l → npProd l = 0) := by
  refine ⟨?_, rfl, npProd_zero_of_mem⟩
  intro pars dims vars v hv hnz
  unfold dropZeroSized
  exact dropZeroSized_mem_aux v (pars.zip dims) vars hv hnz

theorem C10_zero_drop_spares_witness :
    ("v" : String) ∈ dropZeroSized ["z", "v"] [[0], []] ["z", "v"] ∧
      (0 : Nat) ∈ [0] ∧ npProd [0] = 0 :=
  ⟨C10_zero_drop_spares.1 ["z", "v"] [[0], []] ["z", "v"] "v" (by decide) (by decide),
   by decide, C10_zero_drop_spares.2.2 [0] (by decide)⟩

/-- One chain whose warm-up count equals its saved count. -/
def fitWu : Fit Int :=
  { mode := 0,
    sim := { pars_oi := ["v"], dims_oi := [[]], fnames_oi := ["v"],
             n_save := [1], warmup2 := [1], samples := some [⟨[("v", [42])]⟩] },
    model_pars := [], stancode := "" }

/-- C2 (code bug at the warm-up edge): with `warmup2 = n_save = 1` the
per-chain draw count is 0, but the Python slice `ary[-0:]` is `ary[0:]`,
so the whole buffer — including the warm-up row 42 — is returned with
draw-axis extent 1 instead of 0. -/
theorem C2_warmup_rows_leak :
    ndrawsOf fitWu = [0] ∧
      get_draws fitWu VarsArg.nv [] = Except.ok [("v", ⟨[1, 1], [42]⟩, none)] :=
  ⟨rfl, rfl⟩

/-- One chain, variable declared with shape `[1]` (a single flattened
key), two saved rows, one of them warm-up. -/
def fitS1c : Fit Int :=
  { mode := 0,
    sim := { pars_oi := ["v"], dims_oi := [[1]], fnames_oi := ["v[0]"],
             n_save := [2], warmup2 := [1], samples := some [⟨[("v[0]", [10, 20])]⟩] },
    model_pars := [], stancode := "" }

/-- C4 counterexample: for the declared shape `s = [1]` with one chain and
`d = 1` draw after warm-up, the claim predicts shape `(1, 1, 1)`, but
`np.column_stack` of the single 1-D column yields a `(1, L)` array, the
warm-up slice runs along the wrong axis, and the result has shape
`(1, 2, 1)` — the warm-up row is kept as a draw. -/
theorem C4_output_shape_cex :
    ndrawsOf fitS1c = [1] ∧ shapeFor fitS1c "v" = [1] ∧
      get_draws fitS1c VarsArg.nv [] =
        Except.ok [("v", ⟨[1, 2, 1], [10, 20]⟩, none)] ∧
      [1, 2, 1] ≠ [1, 1, 1] :=
  ⟨rfl, rfl, rfl, by decide⟩

/-- C4 (amended): when all chains have the same positive draws-after-warmup
`d`, `get_draws` returns for a scalar variable (empty declared shape, one
flattened key) an array of shape `(numChains, d)`, and for a variable
declared with shape `s` that has at least two flattened keys (as many as
the total size of `s`) an array of shape `(numChains, d, *s)`, chain axis
leading.  Shaped variables with a single flattened key are excluded (see
the counterexample), as is `d = 0` (see the C2 edge case). -/
theorem C4_output_shape :
    (∀ (fit : Fit Int) (vsel : VarsArg) (ignore : List String)
        (hs : List (ChainHolder Int)) (v key : String)
        (colOf : Nat → List Int) (LOf : Nat → Nat) (d : Nat),
      fit.mode ≠ 1 → fit.mode ≠ 2 → fit.sim.samples = some hs → hs ≠ [] →
      (ndrawsOf fit).length = hs.length →
      v ∈ finalVars fit vsel ignore →
      keysFor fit v = [key] → shapeFor fit v = [] →
      (∀ c, c < hs.length →
        lookupCol ((hs.getD c default).chains) key = some (colOf c)) →
      (∀ c, c < hs.length → (colOf c).length = LOf c) →
      (∀ c, c < hs.length → (ndrawsOf fit).getD c 0 = (d : Int)) →
      1 ≤ d → (∀ c, c < hs.length → d ≤ LOf c) →
      ∀ data, get_draws fit vsel ignore = .ok data →
        ∃ a dt, data.find? (fun p => p.1 == v) = some (v, a, dt) ∧
          a.shape = [hs.length, d]) ∧
    (∀ (fit : Fit Int) (vsel : VarsArg) (ignore : List String)
        (hs : List (ChainHolder Int)) (v k1 k2 : String) (krest : List String)
        (s0 : Nat) (s' : List Nat) (colsOf : Nat → List (List Int))
        (LOf : Nat → Nat) (d : Nat),
      fit.mode ≠ 1 → fit.mode ≠ 2 → fit.sim.samples = some hs → hs ≠ [] →
      (ndrawsOf fit).length = hs.length →
      v ∈ finalVars fit vsel ignore →
      keysFor fit v = k1 :: k2 :: krest → shapeFor fit v = s0 :: s' →
      (∀ c, c < hs.length →
        lookupsAll ((hs.getD c default).chains) (k1 :: k2 :: krest) = some (colsOf c)) →
      (∀ c, c < hs.length → ∀ col ∈ colsOf c, col.length = LOf c) →
      (∀ c, c < hs.length → (colsOf c).length = shapeProd (s0 :: s')) →
      (∀ c, c < hs.length → (ndrawsOf fit).getD c 0 = (d : Int)) →
      1 ≤ d → (∀ c, c < hs.length → d ≤ LOf c) →
      ∀ data, get_draws fit vsel ignore = .ok data →
        ∃ a dt, data.find? (fun p => p.1 == v) = some (v, a, dt) ∧
          a.shape = hs.length :: d :: s0 :: s') := by
  constructor
  · intro fit vsel ignore hs v key colOf LOf d hm1 hm2 hsome hne hlen hv hkeys hshape
      hlook hcollen hnd hd1 hdL data hok
    obtain ⟨a, hFa, hfind⟩ := get_draws_find fit vsel ignore hs hm1 hm2 hsome v hv data hok
    obtain ⟨A, hA, hAshape, _⟩ := extractVar_one_spec fit v hs (ndrawsOf fit) key
      colOf LOf d hkeys hshape hlen hne hlook hcollen hnd hd1 hdL
    have haA : a = A := by
      have := hFa.symm.trans hA
      exact Except.ok.inj this
    exact ⟨a, _, hfind, by rw [haA]; exact hAshape⟩
  · intro fit vsel ignore hs v k1 k2 krest s0 s' colsOf LOf d hm1 hm2 hsome hne hlen
      hv hkeys hshape hlook hcollen hkc hnd hd1 hdL data hok
    obtain ⟨a, hFa, hfind⟩ := get_draws_find fit vsel ignore hs hm1 hm2 hsome v hv data hok
    obtain ⟨A, hA, hAshape, _⟩ := extractVar_many_spec fit v hs (ndrawsOf fit) k1 k2 krest
      s0 s' colsOf LOf d hkeys hshape hlen hne hlook hcollen hkc hnd hd1 hdL
    have haA : a = A := by
      have := hFa.symm.trans hA
      exact Except.ok.inj this
    exact ⟨a, _, hfind, by rw [haA]; exact hAshape⟩

/-- Two chains of a `(2,3)`-shaped variable, flattened keys enumerating
the first index fastest, three saved rows each, one warm-up row. -/
def hs23 : List (ChainHolder Int) :=
  [⟨[("v[0,0]", [100, 0, 1]), ("v[1,0]", [100, 10, 11]), ("v[0,1]", [100, 20, 21]),
     ("v[1,1]", [100, 30, 31]), ("v[0,2]", [100, 40, 41]), ("v[1,2]", [100, 50, 51])]⟩,
   ⟨[("v[0,0]", [100, 1000, 1001]), ("v[1,0]", [100, 1010, 1011]),
     ("v[0,1]", [100, 1020, 1021]), ("v[1,1]", [100, 1030, 1031]),
     ("v[0,2]", [100, 1040, 1041]), ("v[1,2]", [100, 1050, 1051])]⟩]

def fit23 : Fit Int :=
  { mode := 0,
    sim := { pars_oi := ["v"], dims_oi := [[2, 3]],
             fnames_oi := ["v[0,0]", "v[1,0]", "v[0,1]", "v[1,1]", "v[0,2]", "v[1,2]"],
             n_save := [3, 3], warmup2 := [1, 1], samples := some hs23 },
    model_pars := ["v"], stancode := "" }

/-- The keyed columns of `hs23`, per chain. -/
def cols23 (c : Nat) : List (List Int) :=
  if c = 0 then
    [[100, 0, 1], [100, 10, 11], [100, 20, 21], [100, 30, 31], [100, 40, 41],
     [100, 50, 51]]
  else
    [[100, 1000, 1001], [100, 1010, 1011], [100, 1020, 1021], [100, 1030, 1031],
     [100, 1040, 1041], [100, 1050, 1051]]

/-- The draws mapping `get_draws` returns on `fit23`. -/
def data23 : List (String × NpArray Int × Option String) :=
  [("v", ⟨[2, 2, 2, 3],
    [0, 20, 40, 10, 30, 50, 1, 21, 41, 11, 31, 51,
     1000, 1020, 1040, 1010, 1030, 1050, 1001, 1021, 1041, 1011, 1031, 1051]⟩, none)]

theorem C4_output_shape_witness :
    (∃ a dt, [(("v" : String), (⟨[1, 1], [20]⟩ : NpArray Int), (none : Option String)),
        ("lp__", ⟨[1, 1], [2]⟩, none)].find? (fun p => p.1 == "v") =
          some ("v", a, dt) ∧ a.shape = [1, 1]) ∧
    (∃ a dt, data23.find? (fun p => p.1 == "v") = some ("v", a, dt) ∧
      a.shape = [2, 2, 2, 3]) :=
  ⟨C4_output_shape.1 fitLp VarsArg.nv [] [⟨[("v", [10, 20]), ("lp__", [1, 2])]⟩]
      "v" "v" (fun _ => [10, 20]) (fun _ => 2) 1
      (by decide) (by decide) rfl (by decide) rfl (by decide) rfl rfl
      (by decide) (by decide) (by decide) (by decide) (by decide) _ rfl,
   C4_output_shape.2 fit23 VarsArg.nv [] hs23 "v" "v[0,0]" "v[1,0]"
      ["v[0,1]", "v[1,1]", "v[0,2]", "v[1,2]"] 2 [3] cols23 (fun _ => 3) 2
      (by decide) (by decide) rfl (by decide) rfl (by decide) rfl rfl
      (by decide) (by decide) (by decide) (by decide) (by decide) (by decide)
      data23 rfl⟩

/-- C1: for a variable declared with 2-D shape `(2,3)` whose six flattened
keys enumerate the first index fastest, the array `get_draws` returns
places the raw column for the key at position `i0 + 2*i1` of the key list
(i.e. key `v[i0,i1]`) exactly at multi-dimensional position `[i0, i1]`:
entry `[c, t, i0, i1]` is row `n_save[c] - d + t` of that column, so the
column-stack followed by the Fortran-order reshape maps flattened key
order onto declared index positions. -/
theorem C1_reshape_invariant (fit : Fit Int) (vsel : VarsArg) (ignore : List String)
    (hs : List (ChainHolder Int)) (v : String)
    (k00 k10 k01 k11 k02 k12 : String)
    (colsOf : Nat → List (List Int)) (d : Nat)
    (hm1 : fit.mode ≠ 1) (hm2 : fit.mode ≠ 2) (hsome : fit.sim.samples = some hs)
    (hlen : (ndrawsOf fit).length = hs.length) (hne : hs ≠ [])
    (hv : v ∈ finalVars fit vsel ignore)
    (hkeys : keysFor fit v = [k00, k10, k01, k11, k02, k12])
    (hshape : shapeFor fit v = [2, 3])
    (hlook : ∀ c, c < hs.length →
      lookupsAll ((hs.getD c default).chains) [k00, k10, k01, k11, k02, k12] =
        some (colsOf c))
    (hcollen : ∀ c, c < hs.length → ∀ col ∈ colsOf c,
      col.length = fit.sim.n_save.getD c 0)
    (hnd : ∀ c, c < hs.length → (ndrawsOf fit).getD c 0 = (d : Int))
    (hd1 : 1 ≤ d) (hdL : ∀ c, c < hs.length → d ≤ fit.sim.n_save.getD c 0) :
    ∀ data, get_draws fit vsel ignore = .ok data →
      ∃ a dt, data.find? (fun p => p.1 == v) = some (v, a, dt) ∧
        a.shape = [hs.length, d, 2, 3] ∧
        ∀ c t i0 i1, c < hs.length → t < d → i0 < 2 → i1 < 3 →
          a.atIdx [c, t, i0, i1] =
            ((colsOf c).getD (i0 + 2 * i1) []).getD
              (fit.sim.n_save.getD c 0 - d + t) default := by
  intro data hok
  obtain ⟨a, hFa, hfind⟩ := get_draws_find fit vsel ignore hs hm1 hm2 hsome v hv data hok
  have hkc : ∀ c, c < hs.length → (colsOf c).length = shapeProd (2 :: [3]) := by
    intro c hc
    rw [lookupsAll_length _ _ _ (hlook c hc)]
    show 6 = shapeProd [2, 3]
    rfl
  obtain ⟨A, hA, hAshape, hAat⟩ := extractVar_many_spec fit v hs (ndrawsOf fit)
    k00 k10 [k01, k11, k02, k12] 2 [3] colsOf (fun c => fit.sim.n_save.getD c 0) d
    hkeys hshape hlen hne hlook hcollen hkc hnd hd1 hdL
  have haA : a = A := Except.ok.inj (hFa.symm.trans hA)
  refine ⟨a, _, hfind, by rw [haA]; exact hAshape, ?_⟩
  intro c t i0 i1 hc ht h0 h1
  have hval : isValid (2 :: [3]) [i0, i1] := ⟨h0, h1, trivial⟩
  have hfr : fRank (2 :: [3]) [i0, i1] = i0 + 2 * i1 := by
    show i0 + 2 * (i1 + 3 * fRank [] []) = i0 + 2 * i1
    show i0 + 2 * (i1 + 3 * 0) = i0 + 2 * i1
    ring
  have := hAat c t [i0, i1] hc ht hval
  rw [hfr] at this
  rw [haA]
  exact this

theorem C1_reshape_invariant_witness :
    ∃ a dt, data23.find? (fun p => p.1 == "v") = some ("v", a, dt) ∧
      a.shape = [2, 2, 2, 3] ∧
      ∀ c t i0 i1, c < 2 → t < 2 → i0 < 2 → i1 < 3 →
        a.atIdx [c, t, i0, i1] =
          ((cols23 c).getD (i0 + 2 * i1) []).getD
            (fit23.sim.n_save.getD c 0 - 2 + t) default := by
  have h := C1_reshape_invariant fit23 VarsArg.nv [] hs23 "v"
    "v[0,0]" "v[1,0]" "v[0,1]" "v[1,1]" "v[0,2]" "v[1,2]" cols23 2
    (by decide) (by decide) rfl rfl (by decide) (by decide) rfl rfl
    (by decide) (by decide) (by decide) (by decide) (by decide)
    data23 rfl
  obtain ⟨a, dt, hfind, hshape, hat⟩ := h
  exact ⟨a, dt, hfind, hshape, fun c t i0 i1 hc ht h0 h1 => hat c t i0 i1 hc ht h0 h1⟩

/-! ### Marker-splitting lemmas for the dtype scan region -/

theorem isPfx_iff (m : List Char) : ∀ (l : List Char), isPfx m l = true ↔ ∃ t, l = m ++ t := by
  induction m with
  | nil =>
    intro l
    simp [isPfx]
  | cons a as ih =>
    intro l
    cases l with
    | nil =>
      simp [isPfx]
    | cons b bs =>
      show (a == b && isPfx as bs) = true ↔ _
      rw [Bool.and_eq_true, beq_iff_eq, ih bs]
      constructor
      · rintro ⟨rfl, t, rfl⟩
        exact ⟨t, rfl⟩
      · rintro ⟨t, ht⟩
        injection ht with h1 h2
        exact ⟨h1.symm, t, h2⟩

theorem isPfx_append_self (m t : List Char) : isPfx m (m ++ t) = true :=
  (isPfx_iff m (m ++ t)).mpr ⟨t, rfl⟩

theorem hasSub_nil_of_ne (sep : List Char) (hsep : sep ≠ []) : hasSub sep [] = false := by
  cases sep with
  | nil => exact absurd rfl hsep
  | cons a as => rfl

theorem hasSub_cons (sep : List Char) (c : Char) (rest : List Char) :
    hasSub sep (c :: rest) = (isPfx sep (c :: rest) || hasSub sep rest) := rfl

theorem hasSub_sandwich (sep : List Char) (hsep : sep ≠ []) (y : List Char) :
    ∀ (x : List Char), hasSub sep (x ++ sep ++ y) = true := by
  intro x
  induction x with
  | nil =>
    obtain ⟨s0, stail, rfl⟩ : ∃ s0 stail, sep = s0 :: stail := by
      cases sep with
      | nil => exact absurd rfl hsep
      | cons s0 stail => exact ⟨s0, stail, rfl⟩
    show hasSub (s0 :: stail) (s0 :: (stail ++ y)) = true
    rw [hasSub_cons,
      show isPfx (s0 :: stail) (s0 :: (stail ++ y)) = true from
        isPfx_append_self (s0 :: stail) y]
    rfl
  | cons c x' ih =>
    show hasSub sep (c :: (x' ++ sep ++ y)) = true
    rw [hasSub_cons, ih]
    rw [Bool.or_true]

/-- The marker has no nontrivial self-overlap (no proper border), so two
occurrences of it can never overlap. -/
def noOverlap (m : List Char) : Prop :=
  ∀ k, k < m.length → 0 < k → m.drop k ≠ m.take (m.length - k)

theorem pySplitLF_ne_nil (sep : List Char) :
    ∀ (f : Nat) (l : List Char), pySplitLF sep f l ≠ [] := by
  intro f l
  match f, l with
  | 0, [] => exact fun h => List.noConfusion h
  | f + 1, [] => exact fun h => List.noConfusion h
  | 0, c :: rest => exact fun h => List.noConfusion h
  | f + 1, c :: rest =>
    show (if sep ≠ [] ∧ isPfx sep (c :: rest) then
        [] :: pySplitLF sep f (rest.drop (sep.length - 1))
      else
        match pySplitLF sep f rest with
        | [] => [[c]]
        | p :: ps => (c :: p) :: ps) ≠ []
    by_cases hc : sep ≠ [] ∧ isPfx sep (c :: rest)
    · rw [if_pos hc]
      exact fun h => List.noConfusion h
    · rw [if_neg hc]
      cases pySplitLF sep f rest with
      | nil => exact fun h => List.noConfusion h
      | cons p ps => exact fun h => List.noConfusion h

theorem pySplitLF_no_sub (sep : List Char) (_hsep : sep ≠ []) :
    ∀ (f : Nat) (l : List Char), l.length ≤ f → hasSub sep l = false →
      pySplitLF sep f l = [l] := by
  intro f
  induction f with
  | zero =>
    intro l hl _
    have : l = [] := by
      cases l with
      | nil => rfl
      | cons c rest => simp at hl
    rw [this]
    rfl
  | succ f ih =>
    intro l hl hsub
    cases l with
    | nil => rfl
    | cons c rest =>
      rw [hasSub_cons, Bool.or_eq_false_iff] at hsub
      show (if sep ≠ [] ∧ isPfx sep (c :: rest) then
          [] :: pySplitLF sep f (rest.drop (sep.length - 1))
        else
          match pySplitLF sep f rest with
          | [] => [[c]]
          | p :: ps => (c :: p) :: ps) = [c :: rest]
      rw [if_neg (fun hc => by rw [hsub.1] at hc; exact Bool.noConfusion hc.2)]
      rw [ih rest (by simpa using Nat.le_of_succ_le_succ (by simpa using hl)) hsub.2]

theorem pySplitLF_two_le (sep : List Char) (hsep : sep ≠ []) :
    ∀ (f : Nat) (l : List Char), l.length ≤ f → hasSub sep l = true →
      2 ≤ (pySplitLF sep f l).length := by
  intro f
  induction f with
  | zero =>
    intro l hl hsub
    have : l = [] := by
      cases l with
      | nil => rfl
      | cons c rest => simp at hl
    rw [this, hasSub_nil_of_ne sep hsep] at hsub
    cases hsub
  | succ f ih =>
    intro l hl hsub
    cases l with
    | nil =>
      rw [hasSub_nil_of_ne sep hsep] at hsub
      cases hsub
    | cons c rest =>
      show 2 ≤ (if sep ≠ [] ∧ isPfx sep (c :: rest) then
          [] :: pySplitLF sep f (rest.drop (sep.length - 1))
        else
          match pySplitLF sep f rest with
          | [] => [[c]]
          | p :: ps => (c :: p) :: ps).length
      by_cases hc : sep ≠ [] ∧ isPfx sep (c :: rest)
      · rw [if_pos hc]
        have := pySplitLF_ne_nil sep f (rest.drop (sep.length - 1))
        cases hrec : pySplitLF sep f (rest.drop (sep.length - 1)) with
        | nil => exact absurd hrec this
        | cons p ps => simp
      · rw [if_neg hc]
        have hpfx : isPfx sep (c :: rest) = false := by
          cases hpf : isPfx sep (c :: rest) with
          | false => rfl
          | true => exact absurd ⟨hsep, hpf⟩ hc
        rw [hasSub_cons, hpfx, Bool.false_or] at hsub
        have hrec2 := ih rest (by simpa using Nat.le_of_succ_le_succ (by simpa using hl)) hsub
        cases hrec : pySplitLF sep f rest with
        | nil => exact absurd hrec (pySplitLF_ne_nil sep f rest)
        | cons p ps =>
          rw [hrec] at hrec2
          cases ps with
          | nil => simp at hrec2
          | cons q qs => simp

theorem pySplitLF_getLast (sep : List Char) (hsep : sep ≠ []) (hov : noOverlap sep) :
    ∀ (f : Nat) (a b : List Char), (a ++ sep ++ b).length ≤ f →
      hasSub sep b = false →
      (pySplitLF sep f (a ++ sep ++ b)).getLastD [] = b := by
  intro f
  induction f with
  | zero =>
    intro a b hl _
    exfalso
    obtain ⟨s0, stail, rfl⟩ : ∃ s0 stail, sep = s0 :: stail := by
      cases sep with
      | nil => exact absurd rfl hsep
      | cons s0 stail => exact ⟨s0, stail, rfl⟩
    simp at hl
  | succ f ih =>
    intro a b hl hb
    cases a with
    | nil =>
      obtain ⟨s0, stail, rfl⟩ : ∃ s0 stail, sep = s0 :: stail := by
        cases sep with
        | nil => exact absurd rfl hsep
        | cons s0 stail => exact ⟨s0, stail, rfl⟩
      show (pySplitLF (s0 :: stail) (f + 1) (s0 :: (stail ++ b))).getLastD [] = b
      have hpfx : isPfx (s0 :: stail) (s0 :: (stail ++ b)) = true :=
        isPfx_append_self (s0 :: stail) b
      show (if (s0 :: stail) ≠ [] ∧ isPfx (s0 :: stail) (s0 :: (stail ++ b)) then
          [] :: pySplitLF (s0 :: stail) f ((stail ++ b).drop ((s0 :: stail).length - 1))
        else
          match pySplitLF (s0 :: stail) f (stail ++ b) with
          | [] => [[s0]]
          | p :: ps => (s0 :: p) :: ps).getLastD [] = b
      rw [if_pos ⟨fun h => List.noConfusion h, hpfx⟩]
      have hdrop : (stail ++ b).drop ((s0 :: stail).length - 1) = b := by
        show (stail ++ b).drop (stail.length + 1 - 1) = b
        rw [Nat.add_sub_cancel]
        exact List.drop_left stail b
      rw [hdrop]
      have hrec : pySplitLF (s0 :: stail) f b = [b] := by
        apply pySplitLF_no_sub (s0 :: stail) hsep f b ?_ hb
        simp at hl
        omega
      rw [hrec]
      rfl
    | cons c a' =>
      show (pySplitLF sep (f + 1) (c :: (a' ++ sep ++ b))).getLastD [] = b
      have hlen' : (a' ++ sep ++ b).length ≤ f := by
        simp at hl ⊢
        omega
      show (if sep ≠ [] ∧ isPfx sep (c :: (a' ++ sep ++ b)) then
          [] :: pySplitLF sep f ((a' ++ sep ++ b).drop (sep.length - 1))
        else
          match pySplitLF sep f (a' ++ sep ++ b) with
          | [] => [[c]]
          | p :: ps => (c :: p) :: ps).getLastD [] = b
      by_cases hpfx : isPfx sep (c :: (a' ++ sep ++ b))
      · rw [if_pos ⟨hsep, hpfx⟩]
        have hsleln : 1 ≤ sep.length := by
          cases sep with
          | nil => exact absurd rfl hsep
          | cons s0 stail => simp
        by_cases hsz : sep.length ≤ a'.length + 1
        · have hdrop : (a' ++ sep ++ b).drop (sep.length - 1) =
              ((c :: a').drop sep.length) ++ sep ++ b := by
            have h2 : (c :: a').drop sep.length = a'.drop (sep.length - 1) := by
              cases hsepn : sep.length with
              | zero => omega
              | succ n =>
                show a'.drop n = a'.drop (n + 1 - 1)
                rw [Nat.add_sub_cancel]
            have h1 : (a' ++ (sep ++ b)).drop (sep.length - 1) =
                a'.drop (sep.length - 1) ++ (sep ++ b) := by
              rw [List.drop_append_eq_append_drop]
              have hz : sep.length - 1 - a'.length = 0 := by omega
              rw [hz]
              rfl
            calc (a' ++ sep ++ b).drop (sep.length - 1)
                = (a' ++ (sep ++ b)).drop (sep.length - 1) := by rw [List.append_assoc]
              _ = a'.drop (sep.length - 1) ++ (sep ++ b) := h1
              _ = a'.drop (sep.length - 1) ++ sep ++ b := by rw [List.append_assoc]
              _ = ((c :: a').drop sep.length) ++ sep ++ b := by rw [h2]
          rw [hdrop]
          have hreclen : (((c :: a').drop sep.length) ++ sep ++ b).length ≤ f := by
            have h5 := hlen'
            simp at h5 ⊢
            omega
          have hrecv := ih ((c :: a').drop sep.length) b hreclen hb
          have hne2 := pySplitLF_ne_nil sep f (((c :: a').drop sep.length) ++ sep ++ b)
          cases hrec : pySplitLF sep f (((c :: a').drop sep.length) ++ sep ++ b) with
          | nil => exact absurd hrec hne2
          | cons p ps =>
            rw [hrec] at hrecv
            rw [List.getLastD_cons]
            cases ps with
            | nil =>
              simp at hrecv ⊢
              exact hrecv
            | cons q qs =>
              rw [List.getLastD_cons] at hrecv ⊢
              exact hrecv
        · exfalso
          have hsz' : a'.length + 1 < sep.length := by omega
          obtain ⟨t, ht⟩ := (isPfx_iff sep _).mp hpfx
          have h1 : (c :: (a' ++ sep ++ b)).take sep.length = sep := by
            rw [ht, List.take_left' rfl]
          have h2 : ((c :: a') ++ (sep ++ b)).take sep.length =
              (c :: a') ++ (sep ++ b).take (sep.length - (a'.length + 1)) := by
            rw [List.take_append_eq_append_take]
            have hlen1 : (c :: a').length = a'.length + 1 := by simp
            rw [List.take_of_length_le (by simp; omega), hlen1]
          have h3 : (sep ++ b).take (sep.length - (a'.length + 1)) =
              sep.take (sep.length - (a'.length + 1)) :=
            List.take_append_of_le_length (by omega)
          have htake : sep = (c :: a') ++ sep.take (sep.length - (a'.length + 1)) :=
            calc sep
                = (c :: (a' ++ sep ++ b)).take sep.length := h1.symm
              _ = ((c :: a') ++ (sep ++ b)).take sep.length := by
                  rw [List.append_assoc]
                  rfl
              _ = (c :: a') ++ (sep ++ b).take (sep.length - (a'.length + 1)) := h2
              _ = (c :: a') ++ sep.take (sep.length - (a'.length + 1)) := by rw [h3]
          have hdropsep : sep.drop (a'.length + 1) =
              sep.take (sep.length - (a'.length + 1)) := by
            conv_lhs => rw [htake]
            rw [show (a'.length + 1) = (c :: a').length by simp, List.drop_left]
          exact hov (a'.length + 1) hsz' (by omega) hdropsep
      · rw [if_neg (fun hc => hpfx hc.2)]
        have hsub2 : hasSub sep (a' ++ sep ++ b) = true := hasSub_sandwich sep hsep b a'
        have h2le := pySplitLF_two_le sep hsep f (a' ++ sep ++ b) hlen' hsub2
        have hrecv := ih a' b hlen' hb
        cases hrec : pySplitLF sep f (a' ++ sep ++ b) with
        | nil => exact absurd hrec (pySplitLF_ne_nil sep f _)
        | cons p ps =>
          rw [hrec] at hrecv h2le
          cases ps with
          | nil => simp at h2le
          | cons q qs =>
            show ((c :: p) :: q :: qs).getLastD [] = b
            rw [List.getLastD_cons] at hrecv ⊢
            rw [List.getLastD_cons] at hrecv ⊢
            exact hrecv

theorem lastPart_append (sep : List Char) (hsep : sep ≠ []) (hov : noOverlap sep)
    (a b : List Char) (hb : hasSub sep b = false) :
    lastPart sep (a ++ sep ++ b) = b := by
  unfold lastPart pySplitL
  exact pySplitLF_getLast sep hsep hov (a ++ sep ++ b).length a b le_rfl hb

theorem lastPart_no_sub (sep : List Char) (hsep : sep ≠ []) (l : List Char)
    (h : hasSub sep l = false) : lastPart sep l = l := by
  unfold lastPart pySplitL
  rw [pySplitLF_no_sub sep hsep l.length l le_rfl h]
  rfl

theorem buildDtypes_mem_aux :
    ∀ (cands : List (List Char)) (mp : List String) (acc : List (String × String))
      (p : String × String),
      p ∈ cands.foldl
        (fun acc item =>
          let nm := String.mk (pyStripChars item)
          if nm ∈ mp then
            if acc.any (fun q => q.1 == nm) then acc else acc ++ [(nm, "int")]
          else acc) acc →
      p ∈ acc ∨ (p.2 = "int" ∧ p.1 ∈ mp ∧
        p.1 ∈ cands.map (fun cs => String.mk (pyStripChars cs))) := by
  intro cands
  induction cands with
  | nil => intro mp acc p hp; exact Or.inl hp
  | cons item rest ih =>
    intro mp acc p hp
    have hstep := ih mp
      (if String.mk (pyStripChars item) ∈ mp then
        if acc.any (fun q => q.1 == String.mk (pyStripChars item)) then acc
        else acc ++ [(String.mk (pyStripChars item), "int")]
      else acc) p hp
    cases hstep with
    | inr h =>
      exact Or.inr ⟨h.1, h.2.1, List.mem_cons_of_mem _ h.2.2⟩
    | inl h =>
      by_cases hmem : String.mk (pyStripChars item) ∈ mp
      · rw [if_pos hmem] at h
        by_cases hany : acc.any (fun q => q.1 == String.mk (pyStripChars item))
        · rw [if_pos hany] at h
          exact Or.inl h
        · rw [if_neg hany] at h
          cases List.mem_append.mp h with
          | inl h2 => exact Or.inl h2
          | inr h2 =>
            have : p = (String.mk (pyStripChars item), "int") := by
              cases h2 with
              | head => rfl
              | tail _ h3 => cases h3
            rw [this]
            exact Or.inr ⟨rfl, hmem, List.mem_map.mpr ⟨item, List.mem_cons_self _ _, rfl⟩⟩
      · rw [if_neg hmem] at h
        exact Or.inl h

theorem buildDtypes_mem (cands : List (List Char)) (mp : List String)
    (p : String × String) (hp : p ∈ buildDtypes cands mp) :
    p.2 = "int" ∧ p.1 ∈ mp ∧
      p.1 ∈ cands.map (fun cs => String.mk (pyStripChars cs)) := by
  cases buildDtypes_mem_aux cands mp [] p hp with
  | inl h => cases h
  | inr h => exact h

theorem buildDtypes_acc_mono :
    ∀ (cands : List (List Char)) (mp : List String) (acc : List (String × String))
      (q : String × String), q ∈ acc →
      q ∈ cands.foldl
        (fun acc item =>
          let nm := String.mk (pyStripChars item)
          if nm ∈ mp then
            if acc.any (fun r => r.1 == nm) then acc else acc ++ [(nm, "int")]
          else acc) acc := by
  intro cands
  induction cands with
  | nil => intro mp acc q hq; exact hq
  | cons item rest ih =>
    intro mp acc q hq
    apply ih mp
    show q ∈ (if String.mk (pyStripChars item) ∈ mp then
      if acc.any (fun r => r.1 == String.mk (pyStripChars item)) then acc
      else acc ++ [(String.mk (pyStripChars item), "int")]
    else acc)
    by_cases hmem : String.mk (pyStripChars item) ∈ mp
    · rw [if_pos hmem]
      by_cases hany : acc.any (fun r => r.1 == String.mk (pyStripChars item))
      · rw [if_pos hany]; exact hq
      · rw [if_neg hany]; exact List.mem_append.mpr (Or.inl hq)
    · rw [if_neg hmem]; exact hq

theorem buildDtypes_complete_aux :
    ∀ (cands : List (List Char)) (mp : List String) (acc : List (String × String)),
      (∀ q ∈ acc, q.2 = "int") →
      ∀ cs ∈ cands, String.mk (pyStripChars cs) ∈ mp →
      ∃ q ∈ cands.foldl
        (fun acc item =>
          let nm := String.mk (pyStripChars item)
          if nm ∈ mp then
            if acc.any (fun r => r.1 == nm) then acc else acc ++ [(nm, "int")]
          else acc) acc,
        q.1 = String.mk (pyStripChars cs) ∧ q.2 = "int" := by
  intro cands
  induction cands with
  | nil => intro mp acc _ cs hcs; cases hcs
  | cons item rest ih =>
    intro mp acc hacc cs hcs hmp
    have haccstep : ∀ q ∈ (if String.mk (pyStripChars item) ∈ mp then
        if acc.any (fun r => r.1 == String.mk (pyStripChars item)) then acc
        else acc ++ [(String.mk (pyStripChars item), "int")]
      else acc), q.2 = "int" := by
      intro q hq
      by_cases hmem : String.mk (pyStripChars item) ∈ mp
      · rw [if_pos hmem] at hq
        by_cases hany : acc.any (fun r => r.1 == String.mk (pyStripChars item))
        · rw [if_pos hany] at hq; exact hacc q hq
        · rw [if_neg hany] at hq
          cases List.mem_append.mp hq with
          | inl h => exact hacc q h
          | inr h =>
            cases h with
            | head => rfl
            | tail _ h2 => cases h2
      · rw [if_neg hmem] at hq; exact hacc q hq
    rcases List.mem_cons.mp hcs with heq | hrest
    case inr => exact ih mp _ haccstep cs hrest hmp
    case inl =>
      subst heq
      by_cases hany : acc.any (fun r => r.1 == String.mk (pyStripChars cs))
      · obtain ⟨q, hq, hqeq⟩ := List.any_eq_true.mp hany
        refine ⟨q, ?_, by simpa using hqeq, hacc q hq⟩
        apply buildDtypes_acc_mono rest mp _ q
        show q ∈ (if String.mk (pyStripChars cs) ∈ mp then
          if acc.any (fun r => r.1 == String.mk (pyStripChars cs)) then acc
          else acc ++ [(String.mk (pyStripChars cs), "int")]
        else acc)
        rw [if_pos hmp, if_pos hany]
        exact hq
      · refine ⟨(String.mk (pyStripChars cs), "int"), ?_, rfl, rfl⟩
        apply buildDtypes_acc_mono rest mp _ _
        show (String.mk (pyStripChars cs), "int") ∈
          (if String.mk (pyStripChars cs) ∈ mp then
            if acc.any (fun r => r.1 == String.mk (pyStripChars cs)) then acc
            else acc ++ [(String.mk (pyStripChars cs), "int")]
          else acc)
        rw [if_pos hmp, if_neg hany]
        exact List.mem_append.mpr (Or.inr (List.mem_cons_self _ _))

theorem buildDtypes_complete (cands : List (List Char)) (mp : List String)
    (cs : List Char) (hcs : cs ∈ cands) (hmp : String.mk (pyStripChars cs) ∈ mp) :
    ∃ q ∈ buildDtypes cands mp, q.1 = String.mk (pyStripChars cs) ∧ q.2 = "int" :=
  buildDtypes_complete_aux cands mp [] (fun _ hq => by cases hq) cs hcs hmp

/-- An empty sampling side, for fixtures that only exercise dtype
inference. -/
def simEmpty : Sim Int :=
  { pars_oi := [], dims_oi := [], fnames_oi := [], n_save := [], warmup2 := [],
    samples := none }

def fitC5 : Fit Int :=
  { mode := 0, sim := simEmpty, model_pars := ["y_rep", "z"],
    stancode := "generated quantities \x7b int y_rep; real z; \x7d" }

/-- C5: on the model text with one int and one real declaration in the
generated-quantities block, `infer_dtypes` maps exactly `y_rep` to the
integer classification and omits `z`; and in general every entry of the
returned mapping carries the integer kind and names a declared parameter
of the fit. -/
theorem C5_dtype_inference :
    infer_dtypes fitC5 = [("y_rep", "int")] ∧
      ∀ (fit : Fit Int), ∀ p ∈ infer_dtypes fit, p.2 = "int" ∧ p.1 ∈ fit.model_pars := by
  constructor
  · rfl
  · intro fit p hp
    have h := buildDtypes_mem (findallInt (scannedRegion fit.stancode.data))
      fit.model_pars p hp
    exact ⟨h.1, h.2.1⟩

theorem C5_dtype_inference_witness :
    (("y_rep", "int") : String × String).2 = "int" ∧
      (("y_rep", "int") : String × String).1 ∈ fitC5.model_pars :=
  C5_dtype_inference.2 fitC5 ("y_rep", "int") (by decide)

/-- C8: a declaration commented out with a line comment is never
reported: on this model text the mapping is empty for every declared
parameter list, because comments and string literals are stripped before
the declaration scan. -/
theorem C8_comment_declarations_ignored (fit : Fit Int)
    (hcode : fit.stancode = "// int fake;\ngenerated quantities \x7b real w; \x7d") :
    infer_dtypes fit = [] := by
  unfold infer_dtypes
  rw [hcode]
  rfl

def fitC8 : Fit Int :=
  { mode := 0, sim := simEmpty, model_pars := ["w", "fake"],
    stancode := "// int fake;\ngenerated quantities \x7b real w; \x7d" }

theorem C8_comment_declarations_ignored_witness : infer_dtypes fitC8 = [] :=
  C8_comment_declarations_ignored fitC8 rfl

/-- C6: the declaration scan of `infer_dtypes` runs only over the text
after the last occurrence of the literal marker "generated quantities" in
the comment-stripped source: when the stripped source splits as
`a ++ marker ++ b` with no further marker occurrence in `b`, every
reported name arises as a (stripped) capture of the scan of `b` alone —
declarations confined to `a` are never reported; and when the marker does
not occur at all, the scan runs over the whole stripped text. -/
theorem C6_last_marker_region :
    (∀ (fit : Fit Int) (a b : List Char),
      stripAllL fit.stancode.data = a ++ markerL ++ b →
      hasSub markerL b = false →
      ∀ p ∈ infer_dtypes fit,
        p.1 ∈ (findallInt b).map (fun cs => String.mk (pyStripChars cs))) ∧
    (∀ (fit : Fit Int),
      hasSub markerL (stripAllL fit.stancode.data) = false →
      infer_dtypes fit =
        buildDtypes (findallInt (stripAllL fit.stancode.data)) fit.model_pars) := by
  have hm : markerL ≠ [] := by decide
  have hov : noOverlap markerL := by
    unfold noOverlap
    decide
  constructor
  · intro fit a b hdec hb p hp
    have hregion : scannedRegion fit.stancode.data = b := by
      unfold scannedRegion
      rw [hdec]
      exact lastPart_append markerL hm hov a b hb
    unfold infer_dtypes at hp
    rw [hregion] at hp
    exact (buildDtypes_mem (findallInt b) fit.model_pars p hp).2.2
  · intro fit h
    unfold infer_dtypes scannedRegion
    rw [lastPart_no_sub markerL hm _ h]

def fitC6 : Fit Int :=
  { mode := 0, sim := simEmpty, model_pars := ["b0"],
    stancode := "int a0;generated quantities int b0;" }

def fitC6n : Fit Int :=
  { mode := 0, sim := simEmpty, model_pars := ["c0"], stancode := "int c0;" }

theorem C6_last_marker_region_witness :
    (("b0", "int") : String × String).1 ∈
      (findallInt " int b0;".data).map (fun cs => String.mk (pyStripChars cs)) ∧
    infer_dtypes fitC6n =
      buildDtypes (findallInt (stripAllL fitC6n.stancode.data)) fitC6n.model_pars :=
  ⟨C6_last_marker_region.1 fitC6 "int a0;".data " int b0;".data (by decide) (by decide)
    ("b0", "int") (by decide),
   C6_last_marker_region.2 fitC6n (by decide)⟩

/-- The post-marker text contains the letters `int` inside the word
`point`, followed by whitespace and the declared identifier `y` — but the
earlier genuine `int` match consumes `point` as its capture, so `y` is
never reported. -/
def fitC9x : Fit Int :=
  { mode := 0, sim := simEmpty, model_pars := ["y"],
    stancode := "generated quantities int point y" }

/-- C9 counterexample: in `fitC9x` the declaration pattern does match at
the occurrence of `int` inside `point` (dropping 7 characters of the
scanned region leaves "int y", where the scan captures the declared
identifier `y`), yet the returned mapping is empty: the left-to-right
non-overlapping scan already consumed that occurrence inside the capture
of the earlier match, so the claim's "whenever" is false as stated. -/
theorem C9_substring_scan_cex :
    (scannedRegion fitC9x.stancode.data).drop 7 = "int y".data ∧
    matchIntAt ((scannedRegion fitC9x.stancode.data).drop 7) = some ("y".data, []) ∧
    ("y" : String) ∈ fitC9x.model_pars ∧
    infer_dtypes fitC9x = [] :=
  ⟨rfl, rfl, by decide, rfl⟩

def fitC9a : Fit Int :=
  { mode := 0, sim := simEmpty, model_pars := ["y"],
    stancode := "generated quantities \x7b point y; \x7d" }

def fitC9i : Fit Int :=
  { mode := 0, sim := simEmpty, model_pars := ["z"],
    stancode := "generated quantities \x7b INT z; \x7d" }

/-- C9 (amended): the scan imposes no word boundary and is
case-insensitive, so identifiers that are not int-declared can be
classified integer: `point y;` causes `y` to be reported (the match
starts inside `point`), and `INT z;` reports `z`.  In general every
capture of the left-to-right non-overlapping scan whose stripped name is
a declared parameter ends up in the mapping with the integer kind — but
only occurrences actually reached by the scan count, since an earlier
match may consume a later occurrence (see the counterexample). -/
theorem C9_no_word_boundary :
    infer_dtypes fitC9a = [("y", "int")] ∧
    infer_dtypes fitC9i = [("z", "int")] ∧
    (∀ (fit : Fit Int) (cs : List Char),
      cs ∈ findallInt (scannedRegion fit.stancode.data) →
      String.mk (pyStripChars cs) ∈ fit.model_pars →
      ∃ q ∈ infer_dtypes fit,
        q.1 = String.mk (pyStripChars cs) ∧ q.2 = "int") := by
  refine ⟨rfl, rfl, ?_⟩
  intro fit cs hcs hmp
  exact buildDtypes_complete (findallInt (scannedRegion fit.stancode.data))
    fit.model_pars cs hcs hmp

theorem C9_no_word_boundary_witness :
    ∃ q ∈ infer_dtypes fitC9a, q.1 = String.mk (pyStripChars "y".data) ∧ q.2 = "int" :=
  C9_no_word_boundary.2.2 fitC9a "y".data (by decide) (by decide)
